import Mathlib

/-!
Verification of the krpc-message codec (bencode <-> KRPC DHT messages).

The generic bencode layer (the `bendy` crate) is, per the specification,
an external primitive: we embed the generic value tree it hands to the
repository's `decode_bencode_object` implementations, and the byte
serialization it produces from `emit_*` calls.  The repository itself
contains two implementations of the message schema: `src/lib.rs` (the
crate root, namespace `Lib` below) and `src/raw.rs` (namespace `Raw`).
Rust `String` fields are represented by their UTF-8 byte sequences;
machine integers by `Nat`/`Int` with explicit bounds where relevant.
-/

set_option maxRecDepth 20000

/-- ASCII bytes of a string literal. -/
def bs (s : String) : List Nat := s.data.map Char.toNat

/-- The generic bencode value tree, as produced by the bencode primitive:
integers (kept as their raw decimal text, which is what `try_into_integer`
yields), byte strings, lists and dictionaries. -/
inductive BValue where
  | int (t : List Nat)
  | str (s : List Nat)
  | list (items : List BValue)
  | dict (pairs : List (List Nat × BValue))

/-- Decoding errors of `bendy::decoding::Error`, restricted to the shapes the
repository produces: `missing_field`, `malformed_content`, the
unexpected-token error of `try_into_*`, and `.context(..)` wrapping. -/
inductive DecErr where
  | missingField (f : String)
  | malformed (m : String)
  | unexpectedToken (expected : String)
  | context (c : String) (e : DecErr)
deriving DecidableEq, Repr

deriving instance DecidableEq for Except

/-- `Result::context(name)`: attach the field name to an error, pass oks. -/
def withCtx (c : String) : Except DecErr α → Except DecErr α
  | .ok a => .ok a
  | .error e => .error (.context c e)

/-- `Object::try_into_bytes`. -/
def tryIntoBytes : BValue → Except DecErr (List Nat)
  | .str s => .ok s
  | _ => .error (.unexpectedToken "ByteString")

/-- `Object::try_into_integer` (yields the raw decimal text). -/
def tryIntoInteger : BValue → Except DecErr (List Nat)
  | .int t => .ok t
  | _ => .error (.unexpectedToken "Integer")

/-- `Object::try_into_dictionary` (yields the pair sequence in wire order). -/
def tryIntoDict : BValue → Except DecErr (List (List Nat × BValue))
  | .dict ps => .ok ps
  | _ => .error (.unexpectedToken "Dict")

/-- `Object::try_into_list`. -/
def tryIntoList : BValue → Except DecErr (List BValue)
  | .list xs => .ok xs
  | _ => .error (.unexpectedToken "List")

/-- The `while let Some(pair) = dict.next_pair()?` loops of the repository:
fold a per-pair step over the dictionary pairs, stopping at the first error. -/
def walk (step : σ → List Nat × BValue → Except DecErr σ) : σ → List (List Nat × BValue) → Except DecErr σ
  | s, [] => .ok s
  | s, p :: ps =>
    match step s p with
    | .ok s' => walk step s' ps
    | .error e => .error e

theorem walk_append (step : σ → List Nat × BValue → Except DecErr σ) (s : σ)
    (l₁ l₂ : List (List Nat × BValue)) :
    walk step s (l₁ ++ l₂) =
      match walk step s l₁ with
      | .ok s' => walk step s' l₂
      | .error e => .error e := by
  induction l₁ generalizing s with
  | nil => simp [walk]
  | cons p ps ih =>
    simp only [List.cons_append, walk]
    cases step s p with
    | ok s' => exact ih s'
    | error e => rfl

theorem walk_skip (step : σ → List Nat × BValue → Except DecErr σ) (s : σ)
    (l₁ l₂ : List (List Nat × BValue)) (p : List Nat × BValue)
    (hp : ∀ s', step s' p = .ok s') :
    walk step s (l₁ ++ p :: l₂) = walk step s (l₁ ++ l₂) := by
  induction l₁ generalizing s with
  | nil => simp [walk, hp]
  | cons q qs ih =>
    simp only [List.cons_append, walk]
    cases step s q with
    | ok s' => exact ih s'
    | error e => rfl

/-- Is the byte an ASCII decimal digit? -/
def isDigit (c : Nat) : Bool := 48 ≤ c && c ≤ 57

/-- Numeric value of a most-significant-first digit run (bytes 48..57). -/
def digitsVal (l : List Nat) : Nat := l.foldl (fun a c => a * 10 + (c - 48)) 0

/-- Canonical decimal text of a natural number, fuel-bounded so that it
reduces; `natText` below supplies enough fuel. -/
def natTextF : Nat → Nat → List Nat
  | 0, _ => []
  | fuel + 1, n => if n < 10 then [n + 48] else natTextF fuel (n / 10) ++ [n % 10 + 48]

/-- Canonical decimal text of a natural number (what bendy's encoder emits). -/
def natText (n : Nat) : List Nat := natTextF (n + 1) n

/-- Canonical decimal text of an integer. -/
def intText (i : Int) : List Nat :=
  if i < 0 then 45 :: natText i.natAbs else natText i.natAbs

/-- Rust `str::parse` for unsigned integers: optional leading `+`, then one
or more decimal digits; no range check here. -/
def parseUText (t : List Nat) : Option Nat :=
  match t with
  | [] => none
  | c :: cs =>
    if c = 43 then
      if cs ≠ [] && cs.all isDigit then some (digitsVal cs) else none
    else if (c :: cs).all isDigit then some (digitsVal (c :: cs)) else none

/-- Rust `str::parse::<u16>`: digits within `u16` range. -/
def parseU16 (t : List Nat) : Option Nat :=
  match parseUText t with
  | some v => if v < 65536 then some v else none
  | none => none

/-- Rust `str::parse::<u8>`: digits within `u8` range. -/
def parseU8 (t : List Nat) : Option Nat :=
  match parseUText t with
  | some v => if v < 256 then some v else none
  | none => none

/-- Rust `str::parse` for signed integers: optional sign then digits. -/
def parseIText (t : List Nat) : Option Int :=
  match t with
  | [] => none
  | c :: cs =>
    if c = 45 then
      if cs ≠ [] && cs.all isDigit then some (-(digitsVal cs : Int)) else none
    else (parseUText (c :: cs)).map (fun v => (v : Int))

/-- Rust `str::parse::<i64>`: signed text within `i64` range. -/
def parseI64 (t : List Nat) : Option Int :=
  match parseIText t with
  | some v => if -(2 ^ 63) ≤ v ∧ v < 2 ^ 63 then some v else none
  | none => none

/-- `u16::to_be_bytes`. -/
def be16 (n : Nat) : List Nat := [n / 256, n % 256]

/-- `u16::from_be_bytes`. -/
def fromBe16 (a b : Nat) : Nat := a * 256 + b

/-- Validity check for UTF-8 byte sequences (`String::from_utf8`). -/
def validUtf8 : List Nat → Bool
  | [] => true
  | c :: cs =>
    if c < 0x80 then validUtf8 cs
    else if 0xC2 ≤ c && c ≤ 0xDF then
      match cs with
      | c1 :: cs' => (0x80 ≤ c1 && c1 ≤ 0xBF) && validUtf8 cs'
      | [] => false
    else if 0xE0 ≤ c && c ≤ 0xEF then
      match cs with
      | c1 :: c2 :: cs' =>
        (if c = 0xE0 then 0xA0 ≤ c1 && c1 ≤ 0xBF
         else if c = 0xED then 0x80 ≤ c1 && c1 ≤ 0x9F
         else 0x80 ≤ c1 && c1 ≤ 0xBF) &&
        ((0x80 ≤ c2 && c2 ≤ 0xBF) && validUtf8 cs')
      | _ => false
    else if 0xF0 ≤ c && c ≤ 0xF4 then
      match cs with
      | c1 :: c2 :: c3 :: cs' =>
        (if c = 0xF0 then 0x90 ≤ c1 && c1 ≤ 0xBF
         else if c = 0xF4 then 0x80 ≤ c1 && c1 ≤ 0x8F
         else 0x80 ≤ c1 && c1 ≤ 0xBF) &&
        ((0x80 ≤ c2 && c2 ≤ 0xBF) && ((0x80 ≤ c3 && c3 ≤ 0xBF) && validUtf8 cs'))
      | _ => false
    else false

/-- `impl FromBencode for String` (bendy): bytes checked as UTF-8; the string
is represented by its UTF-8 bytes. -/
def strDecode (v : BValue) : Except DecErr (List Nat) :=
  match tryIntoBytes v with
  | .ok s => if validUtf8 s then .ok s else .error (.malformed "invalid utf-8 sequence")
  | .error e => .error e

/-- `impl FromBencode for i64` (bendy): integer text parsed as `i64`. -/
def i64Decode (v : BValue) : Except DecErr Int :=
  match tryIntoInteger v with
  | .ok t =>
    match parseI64 t with
    | some i => .ok i
    | none => .error (.malformed "invalid digit found in string")
  | .error e => .error e

namespace Raw

/-- `raw.rs` `Hash`: 20 raw bytes (`[u8; 20]` modelled as a byte list). -/
structure Hash where
  bytes : List Nat
deriving DecidableEq, Repr

/-- `impl FromBencode for Hash` (raw.rs): a byte string of exactly 20 bytes. -/
def Hash.decode (v : BValue) : Except DecErr Hash :=
  match tryIntoBytes v with
  | .ok s => if s.length = 20 then .ok ⟨s⟩ else .error (.malformed "expected 20 bytes str")
  | .error e => .error e

/-- `impl ToBencode for Hash` (raw.rs). -/
def Hash.encodeB (h : Hash) : BValue := .str h.bytes

/-- `raw.rs` `MessageType` (the `y` field). -/
inductive MessageType where
  | Query
  | Response
  | Error
deriving DecidableEq, Repr

/-- `impl FromBencode for MessageType` (raw.rs). -/
def MessageType.decode (v : BValue) : Except DecErr MessageType :=
  match tryIntoBytes v with
  | .ok s =>
    if s = bs "q" then .ok .Query
    else if s = bs "r" then .ok .Response
    else if s = bs "e" then .ok .Error
    else .error (.malformed "'y' must be q, r, or e")
  | .error e => .error e

/-- `impl ToBencode for MessageType` (raw.rs). -/
def MessageType.encodeB : MessageType → BValue
  | .Query => .str (bs "q")
  | .Response => .str (bs "r")
  | .Error => .str (bs "e")

/-- `raw.rs` `QueryType` (the `q` field; `FindNone` is the source's name). -/
inductive QueryType where
  | Ping
  | FindNone
  | GetPeers
  | AnnouncePeer
deriving DecidableEq, Repr

/-- `impl FromBencode for QueryType` (raw.rs). -/
def QueryType.decode (v : BValue) : Except DecErr QueryType :=
  match tryIntoBytes v with
  | .ok s =>
    if s = bs "ping" then .ok .Ping
    else if s = bs "find_node" then .ok .FindNone
    else if s = bs "get_peers" then .ok .GetPeers
    else if s = bs "announce_peer" then .ok .AnnouncePeer
    else .error (.malformed "'q' must be one of 4 query types")
  | .error e => .error e

/-- `impl ToBencode for QueryType` (raw.rs). -/
def QueryType.encodeB : QueryType → BValue
  | .Ping => .str (bs "ping")
  | .FindNone => .str (bs "find_node")
  | .GetPeers => .str (bs "get_peers")
  | .AnnouncePeer => .str (bs "announce_peer")

/-- `raw.rs` `QueryArgs` (the `a` dictionary). -/
structure QueryArgs where
  sender_id : Hash
  target : Option Hash
  info_hash : Option Hash
  implied_port : Option Bool
  port : Option Nat
  token : Option (List Nat)
deriving DecidableEq, Repr

/-- Accumulator of `QueryArgs::decode_bencode_object`'s loop. -/
structure QAcc where
  sender_id : Option Hash := none
  target : Option Hash := none
  info_hash : Option Hash := none
  implied_port : Option Bool := none
  port : Option Nat := none
  token : Option (List Nat) := none
deriving DecidableEq, Repr

/-- One `match pair` arm of `QueryArgs::decode_bencode_object` (raw.rs). -/
def QueryArgs.step (s : QAcc) (p : List Nat × BValue) : Except DecErr QAcc :=
  if p.1 = bs "id" then
    match withCtx "id" (Hash.decode p.2) with
    | .ok h => .ok { s with sender_id := some h }
    | .error e => .error e
  else if p.1 = bs "implied_port" then
    match withCtx "implied_port" (tryIntoInteger p.2) with
    | .ok i => .ok { s with implied_port := some (i = bs "1") }
    | .error e => .error e
  else if p.1 = bs "info_hash" then
    match withCtx "info_hash" (Hash.decode p.2) with
    | .ok h => .ok { s with info_hash := some h }
    | .error e => .error e
  else if p.1 = bs "port" then
    match withCtx "port" (tryIntoInteger p.2) with
    | .ok t =>
      match parseU16 t with
      | some n => .ok { s with port := some n }
      | none => .error (.malformed "must be valid integer")
    | .error e => .error e
  else if p.1 = bs "target" then
    match withCtx "target" (Hash.decode p.2) with
    | .ok h => .ok { s with target := some h }
    | .error e => .error e
  else if p.1 = bs "token" then
    match withCtx "token" (tryIntoBytes p.2) with
    | .ok b => .ok { s with token := some b }
    | .error e => .error e
  else .ok s

/-- `impl FromBencode for QueryArgs` (raw.rs). -/
def QueryArgs.decode (v : BValue) : Except DecErr QueryArgs :=
  match tryIntoDict v with
  | .ok ps =>
    match walk QueryArgs.step {} ps with
    | .ok s =>
      match s.sender_id with
      | some sender_id =>
        .ok ⟨sender_id, s.target, s.info_hash, s.implied_port, s.port, s.token⟩
      | none => .error (.missingField "sender_id")
    | .error e => .error e
  | .error e => .error e

/-- `impl ToBencode for QueryArgs` (raw.rs): keys in the emitted (sorted)
order `id`, `implied_port`, `info_hash`, `port`, `target`, `token`. -/
def QueryArgs.encodeB (q : QueryArgs) : BValue :=
  .dict ([(bs "id", q.sender_id.encodeB)] ++
    (match q.implied_port with
     | some b => [(bs "implied_port", .int (natText (if b then 1 else 0)))]
     | none => []) ++
    (match q.info_hash with
     | some h => [(bs "info_hash", h.encodeB)]
     | none => []) ++
    (match q.port with
     | some p => [(bs "port", .int (natText p))]
     | none => []) ++
    (match q.target with
     | some h => [(bs "target", h.encodeB)]
     | none => []) ++
    (match q.token with
     | some t => [(bs "token", .str t)]
     | none => []))

/-- `std::net::SocketAddrV4`: four IPv4 octets and a port. -/
structure SocketAddrV4 where
  ip : List Nat
  port : Nat
deriving DecidableEq, Repr

/-- `SocketAddrV4Wrap::try_from(&[u8])` (raw.rs): 6 bytes, split 4 + 2,
big-endian port. -/
def SocketAddrV4.fromBytes (b : List Nat) : Except Unit SocketAddrV4 :=
  match b with
  | [a0, a1, a2, a3, p0, p1] => .ok ⟨[a0, a1, a2, a3], fromBe16 p0 p1⟩
  | _ => .error ()

/-- `From<&SocketAddrV4Wrap<&SocketAddrV4>> for [u8; 6]` (raw.rs). -/
def SocketAddrV4.toBytes (a : SocketAddrV4) : List Nat := a.ip ++ be16 a.port

/-- `impl FromBencode for SocketAddrV4Wrap` (raw.rs). -/
def SocketAddrV4.decode (v : BValue) : Except DecErr SocketAddrV4 :=
  match tryIntoBytes v with
  | .ok b =>
    match SocketAddrV4.fromBytes b with
    | .ok a => .ok a
    | .error _ => .error (.malformed " SocketAddrV4 must be 6 bytes")
  | .error e => .error e

/-- `raw.rs` `Node`: a `Hash` and a socket address. -/
structure Node where
  id : Hash
  addr : SocketAddrV4
deriving DecidableEq, Repr

/-- `From<[u8; 26]> for Node` (raw.rs): split at byte 20. -/
def Node.fromChunk (b : List Nat) : Node :=
  { id := ⟨b.take 20⟩,
    addr :=
      match SocketAddrV4.fromBytes (b.drop 20) with
      | .ok a => a
      | .error _ => ⟨[], 0⟩ }

/-- `From<&Node> for [u8; 26]` (raw.rs). -/
def Node.toChunk (n : Node) : List Nat := n.id.bytes ++ n.addr.toBytes

/-- Fuel-bounded body of `chunks26`; `chunks26` supplies enough fuel. -/
def chunks26F : Nat → List Nat → List (List Nat)
  | 0, _ => []
  | fuel + 1, l => if l = [] then [] else l.take 26 :: chunks26F fuel (l.drop 26)

/-- Rust `slice::chunks(26)`: consecutive 26-byte windows, last may be short. -/
def chunks26 (l : List Nat) : List (List Nat) := chunks26F (l.length + 1) l

/-- The chunk loop of `VecNodeWrap::decode_bencode_object` (raw.rs): each
chunk must be exactly 26 bytes. -/
def nodesOfChunks : List (List Nat) → Except DecErr (List Node)
  | [] => .ok []
  | c :: cs =>
    if c.length = 26 then
      match nodesOfChunks cs with
      | .ok ns => .ok (Node.fromChunk c :: ns)
      | .error e => .error e
    else .error (.malformed "node must be 26 bytes")

/-- `impl FromBencode for VecNodeWrap<Vec<Node>>` (raw.rs). -/
def nodeListDecode (v : BValue) : Except DecErr (List Node) :=
  match tryIntoBytes v with
  | .ok b => nodesOfChunks (chunks26 b)
  | .error e => .error e

/-- `impl ToBencode for VecNodeWrap` (raw.rs): concatenated 26-byte chunks. -/
def nodeListBytes (ns : List Node) : List Nat := (ns.map Node.toChunk).flatten

/-- bendy's `Vec<SocketAddrV4Wrap>` decoding: a bencode list, each element a
6-byte string. -/
def addrListDecode (v : BValue) : Except DecErr (List SocketAddrV4) :=
  match tryIntoList v with
  | .ok items =>
    items.foldr
      (fun it acc =>
        match SocketAddrV4.decode it with
        | .ok a =>
          match acc with
          | .ok as_ => .ok (a :: as_)
          | .error e => .error e
        | .error e => .error e)
      (.ok [])
  | .error e => .error e

/-- `raw.rs` `Response` (the `r` dictionary). -/
structure Response where
  sender_id : Hash
  nodes : Option (List Node)
  values : Option (List SocketAddrV4)
  token : Option (List Nat)
deriving DecidableEq, Repr

/-- Accumulator of `Response::decode_bencode_object`'s loop (raw.rs). -/
structure RAcc where
  sender_id : Option Hash := none
  nodes : Option (List Node) := none
  values : Option (List SocketAddrV4) := none
  token : Option (List Nat) := none
deriving DecidableEq, Repr

/-- One `match pair` arm of `Response::decode_bencode_object` (raw.rs). -/
def Response.step (s : RAcc) (p : List Nat × BValue) : Except DecErr RAcc :=
  if p.1 = bs "id" then
    match withCtx "id" (Hash.decode p.2) with
    | .ok h => .ok { s with sender_id := some h }
    | .error e => .error e
  else if p.1 = bs "nodes" then
    match withCtx "nodes" (nodeListDecode p.2) with
    | .ok ns => .ok { s with nodes := some ns }
    | .error e => .error e
  else if p.1 = bs "values" then
    match withCtx "values" (addrListDecode p.2) with
    | .ok vs => .ok { s with values := some vs }
    | .error e => .error e
  else if p.1 = bs "token" then
    match withCtx "token" (tryIntoBytes p.2) with
    | .ok b => .ok { s with token := some b }
    | .error e => .error e
  else .ok s

/-- `impl FromBencode for Response` (raw.rs). -/
def Response.decode (v : BValue) : Except DecErr Response :=
  match tryIntoDict v with
  | .ok ps =>
    match walk Response.step {} ps with
    | .ok s =>
      match s.sender_id with
      | some sender_id => .ok ⟨sender_id, s.nodes, s.values, s.token⟩
      | none => .error (.missingField "sender_id")
    | .error e => .error e
  | .error e => .error e

/-- `impl ToBencode for Response` (raw.rs): keys `id`, `nodes`, `token`,
`values` in the emitted (sorted) order. -/
def Response.encodeB (r : Response) : BValue :=
  .dict ([(bs "id", r.sender_id.encodeB)] ++
    (match r.nodes with
     | some ns => [(bs "nodes", .str (nodeListBytes ns))]
     | none => []) ++
    (match r.token with
     | some t => [(bs "token", .str t)]
     | none => []) ++
    (match r.values with
     | some vs => [(bs "values", .list (vs.map (fun a => .str a.toBytes)))]
     | none => []))

/-- `raw.rs` `Error` (the `e` payload); the Rust `String` message is held as
its UTF-8 bytes. -/
structure Error where
  code : Int
  message : List Nat
deriving DecidableEq, Repr

/-- `impl FromBencode for Error` (raw.rs): a list of an integer then a string. -/
def Error.decode (v : BValue) : Except DecErr Error :=
  match tryIntoList v with
  | .ok items =>
    match items with
    | [] => .error (.missingField "code")
    | code :: rest =>
      match i64Decode code with
      | .ok c =>
        match rest with
        | [] => .error (.missingField "message")
        | msg :: _ =>
          match strDecode msg with
          | .ok m => .ok ⟨c, m⟩
          | .error e => .error e
      | .error e => .error e
  | .error e => .error e

/-- `impl ToBencode for Error` (raw.rs). -/
def Error.encodeB (e : Error) : BValue :=
  .list [.int (intText e.code), .str e.message]

/-- `raw.rs` `Message`. -/
structure Message where
  transaction_id : Nat
  msg_type : MessageType
  query_type : Option QueryType
  query_args : Option QueryArgs
  response : Option Response
  error : Option Error
deriving DecidableEq, Repr

/-- Accumulator of `Message::decode_bencode_object`'s loop (raw.rs). -/
structure MAcc where
  transaction_id : Option Nat := none
  msg_type : Option MessageType := none
  query_type : Option QueryType := none
  query_args : Option QueryArgs := none
  response : Option Response := none
  error : Option Error := none
deriving DecidableEq, Repr

/-- One `match pair` arm of `Message::decode_bencode_object` (raw.rs);
`t` is two raw bytes read as a big-endian `u16`. -/
def Message.step (s : MAcc) (p : List Nat × BValue) : Except DecErr MAcc :=
  if p.1 = bs "t" then
    match withCtx "t" (tryIntoBytes p.2) with
    | .ok b =>
      match b with
      | [b0, b1] => .ok { s with transaction_id := some (fromBe16 b0 b1) }
      | _ => .error (.malformed "t must be 2 byte str")
    | .error e => .error e
  else if p.1 = bs "y" then
    match withCtx "y" (MessageType.decode p.2) with
    | .ok m => .ok { s with msg_type := some m }
    | .error e => .error e
  else if p.1 = bs "q" then
    match withCtx "q" (QueryType.decode p.2) with
    | .ok q => .ok { s with query_type := some q }
    | .error e => .error e
  else if p.1 = bs "a" then
    match withCtx "a" (QueryArgs.decode p.2) with
    | .ok a => .ok { s with query_args := some a }
    | .error e => .error e
  else if p.1 = bs "r" then
    match withCtx "r" (Response.decode p.2) with
    | .ok r => .ok { s with response := some r }
    | .error e => .error e
  else if p.1 = bs "e" then
    match withCtx "e" (Error.decode p.2) with
    | .ok er => .ok { s with error := some er }
    | .error e => .error e
  else .ok s

/-- `impl FromBencode for Message` (raw.rs): only `t` and `y` are required. -/
def Message.decode (v : BValue) : Except DecErr Message :=
  match tryIntoDict v with
  | .ok ps =>
    match walk Message.step {} ps with
    | .ok s =>
      match s.transaction_id with
      | some tid =>
        match s.msg_type with
        | some mt => .ok ⟨tid, mt, s.query_type, s.query_args, s.response, s.error⟩
        | none => .error (.missingField "y")
      | none => .error (.missingField "t")
    | .error e => .error e
  | .error e => .error e

/-- `impl ToBencode for Message` (raw.rs): keys `a`, `e`, `q`, `r`, `t`, `y`
in the emitted (sorted) order; `t` is the 2-byte big-endian transaction id. -/
def Message.encodeB (m : Message) : BValue :=
  .dict ((match m.query_args with
     | some a => [(bs "a", a.encodeB)]
     | none => []) ++
    (match m.error with
     | some e => [(bs "e", e.encodeB)]
     | none => []) ++
    (match m.query_type with
     | some q => [(bs "q", q.encodeB)]
     | none => []) ++
    (match m.response with
     | some r => [(bs "r", r.encodeB)]
     | none => []) ++
    [(bs "t", .str (be16 m.transaction_id)), (bs "y", m.msg_type.encodeB)])

end Raw

namespace Lib

/-- `lib.rs` `Hash`: 20 raw bytes. -/
structure Hash where
  bytes : List Nat
deriving DecidableEq, Repr

/-- `impl FromBencode for Hash` (lib.rs): `try_into` a 20-byte array, the
slice error surfaced as malformed content. -/
def Hash.decode (v : BValue) : Except DecErr Hash :=
  match tryIntoBytes v with
  | .ok s =>
    if s.length = 20 then .ok ⟨s⟩
    else .error (.malformed "could not convert slice to array")
  | .error e => .error e

/-- `impl ToBencode for Hash` (lib.rs). -/
def Hash.encodeB (h : Hash) : BValue := .str h.bytes

/-- `SocketAddrV4::from_bytes` (lib.rs): 6 bytes, 4 octets then a
big-endian port. -/
def sockFromBytes (b : List Nat) : Except DecErr Raw.SocketAddrV4 :=
  match b with
  | [a0, a1, a2, a3, p0, p1] => .ok ⟨[a0, a1, a2, a3], fromBe16 p0 p1⟩
  | _ => .error (.malformed "sockaddr must be 6 bytes len")

/-- `SocketAddrV4::into_bytes` (lib.rs). -/
def sockIntoBytes (a : Raw.SocketAddrV4) : List Nat := a.ip ++ be16 a.port

/-- `lib.rs` `Node`. -/
structure Node where
  id : Hash
  addr : Raw.SocketAddrV4
deriving DecidableEq, Repr

/-- `From<[u8; 26]> for Node` (lib.rs). -/
def Node.fromChunk (b : List Nat) : Node :=
  { id := ⟨b.take 20⟩,
    addr :=
      match sockFromBytes (b.drop 20) with
      | .ok a => a
      | .error _ => ⟨[], 0⟩ }

/-- `Node::into_bytes` (lib.rs). -/
def Node.intoBytes (n : Node) : List Nat := n.id.bytes ++ sockIntoBytes n.addr

/-- `Vec<Node>::from_bytes` (lib.rs): the same 26-byte chunk loop, the slice
error surfaced as malformed content. -/
def nodesFromChunks : List (List Nat) → Except DecErr (List Node)
  | [] => .ok []
  | c :: cs =>
    if c.length = 26 then
      match nodesFromChunks cs with
      | .ok ns => .ok (Node.fromChunk c :: ns)
      | .error e => .error e
    else .error (.malformed "could not convert slice to array")

/-- `Vec<Node>::from_bytes` (lib.rs). -/
def nodesFromBytes (b : List Nat) : Except DecErr (List Node) :=
  nodesFromChunks (Raw.chunks26 b)

/-- `Vec<Node>::into_bytes` (lib.rs). -/
def nodesIntoBytes (ns : List Node) : List Nat := (ns.map Node.intoBytes).flatten

/-- `impl FromBencode for VecSockaddrV4Wrap` (lib.rs): a bencode list of
6-byte strings. -/
def vecSockDecode (v : BValue) : Except DecErr (List Raw.SocketAddrV4) :=
  match tryIntoList v with
  | .ok items =>
    items.foldr
      (fun it acc =>
        match tryIntoBytes it with
        | .ok b =>
          match sockFromBytes b with
          | .ok a =>
            match acc with
            | .ok as_ => .ok (a :: as_)
            | .error e => .error e
          | .error e => .error e
        | .error e => .error e)
      (.ok [])
  | .error e => .error e

/-- `lib.rs` `Ping` query. -/
structure Ping where
  id : Hash
deriving DecidableEq, Repr

/-- `impl ToBencode for Ping` (lib.rs). -/
def Ping.encodeB (p : Ping) : BValue := .dict [(bs "id", p.id.encodeB)]

/-- `lib.rs` `FindNode` query. -/
structure FindNode where
  id : Hash
  target : Hash
deriving DecidableEq, Repr

/-- `impl ToBencode for FindNode` (lib.rs). -/
def FindNode.encodeB (f : FindNode) : BValue :=
  .dict [(bs "id", f.id.encodeB), (bs "target", f.target.encodeB)]

/-- `lib.rs` `GetPeers` query. -/
structure GetPeers where
  id : Hash
  info_hash : Hash
deriving DecidableEq, Repr

/-- `impl ToBencode for GetPeers` (lib.rs). -/
def GetPeers.encodeB (g : GetPeers) : BValue :=
  .dict [(bs "id", g.id.encodeB), (bs "info_hash", g.info_hash.encodeB)]

/-- `lib.rs` `AnnouncePeer` query. -/
structure AnnouncePeer where
  id : Hash
  implied_port : Option Bool
  info_hash : Hash
  port : Nat
  token : List Nat
deriving DecidableEq, Repr

/-- `impl ToBencode for AnnouncePeer` (lib.rs). -/
def AnnouncePeer.encodeB (a : AnnouncePeer) : BValue :=
  .dict ([(bs "id", a.id.encodeB)] ++
    (match a.implied_port with
     | some b => [(bs "implied_port", .int (natText (if b then 1 else 0)))]
     | none => []) ++
    [(bs "info_hash", a.info_hash.encodeB),
     (bs "port", .int (natText a.port)),
     (bs "token", .str a.token)])

/-- `lib.rs` `Response`. -/
structure Response where
  id : Hash
  nodes : Option (List Node)
  values : Option (List Raw.SocketAddrV4)
  token : Option (List Nat)
deriving DecidableEq, Repr

/-- Accumulator of `Response::decode_bencode_object`'s loop (lib.rs). -/
structure RAcc where
  id : Option Hash := none
  nodes : Option (List Node) := none
  values : Option (List Raw.SocketAddrV4) := none
  token : Option (List Nat) := none
deriving DecidableEq, Repr

/-- One `match pair` arm of `Response::decode_bencode_object` (lib.rs); the
`id` arm attaches context `"y"`, exactly as the source does. -/
def Response.step (s : RAcc) (p : List Nat × BValue) : Except DecErr RAcc :=
  if p.1 = bs "id" then
    match withCtx "y" (Hash.decode p.2) with
    | .ok h => .ok { s with id := some h }
    | .error e => .error e
  else if p.1 = bs "nodes" then
    match withCtx "nodes" (tryIntoBytes p.2) with
    | .ok b =>
      match nodesFromBytes b with
      | .ok ns => .ok { s with nodes := some ns }
      | .error e => .error e
    | .error e => .error e
  else if p.1 = bs "values" then
    match withCtx "values" (vecSockDecode p.2) with
    | .ok vs => .ok { s with values := some vs }
    | .error e => .error e
  else if p.1 = bs "token" then
    match withCtx "token" (tryIntoBytes p.2) with
    | .ok b => .ok { s with token := some b }
    | .error e => .error e
  else .ok s

/-- `impl FromBencode for Response` (lib.rs). -/
def Response.decode (v : BValue) : Except DecErr Response :=
  match tryIntoDict v with
  | .ok ps =>
    match walk Response.step {} ps with
    | .ok s =>
      match s.id with
      | some id => .ok ⟨id, s.nodes, s.values, s.token⟩
      | none => .error (.missingField "id")
    | .error e => .error e
  | .error e => .error e

/-- `impl ToBencode for Response` (lib.rs): keys `id`, `nodes`, `token`,
`values` in the emitted (sorted) order. -/
def Response.encodeB (r : Response) : BValue :=
  .dict ([(bs "id", r.id.encodeB)] ++
    (match r.nodes with
     | some ns => [(bs "nodes", .str (nodesIntoBytes ns))]
     | none => []) ++
    (match r.token with
     | some t => [(bs "token", .str t)]
     | none => []) ++
    (match r.values with
     | some vs => [(bs "values", .list (vs.map (fun a => .str (sockIntoBytes a))))]
     | none => []))

/-- `lib.rs` `Error`; the Rust `String` message is held as its UTF-8 bytes. -/
structure Error where
  code : Int
  message : List Nat
deriving DecidableEq, Repr

/-- `impl FromBencode for Error` (lib.rs); a missing second element is
reported as missing field `"code"`, exactly as the source does. -/
def Error.decode (v : BValue) : Except DecErr Error :=
  match tryIntoList v with
  | .ok items =>
    match items with
    | [] => .error (.missingField "code")
    | code :: rest =>
      match i64Decode code with
      | .ok c =>
        match rest with
        | [] => .error (.missingField "code")
        | msg :: _ =>
          match strDecode msg with
          | .ok m => .ok ⟨c, m⟩
          | .error e => .error e
      | .error e => .error e
  | .error e => .error e

/-- `impl ToBencode for Error` (lib.rs). -/
def Error.encodeB (e : Error) : BValue :=
  .list [.int (intText e.code), .str e.message]

/-- `lib.rs` `PayloadType`. -/
inductive PayloadType where
  | Query
  | Response
  | Error
deriving DecidableEq, Repr

/-- `PayloadType::bencode_key` (lib.rs). -/
def PayloadType.bencodeKey : PayloadType → List Nat
  | .Query => bs "a"
  | .Response => bs "r"
  | .Error => bs "e"

/-- `impl ToBencode for PayloadType` (lib.rs). -/
def PayloadType.encodeB : PayloadType → BValue
  | .Query => .str (bs "q")
  | .Response => .str (bs "r")
  | .Error => .str (bs "e")

/-- `lib.rs` `Payload`: exactly one of the six message payloads. -/
inductive Payload where
  | Ping (p : Ping)
  | FindNode (f : FindNode)
  | GetPeers (g : GetPeers)
  | AnnouncePeer (a : AnnouncePeer)
  | Response (r : Response)
  | Error (e : Error)
deriving DecidableEq, Repr

/-- `Payload::get_type` (lib.rs). -/
def Payload.getType : Payload → PayloadType
  | .Ping _ | .FindNode _ | .GetPeers _ | .AnnouncePeer _ => .Query
  | .Response _ => .Response
  | .Error _ => .Error

/-- `Payload::query_name` (lib.rs). -/
def Payload.queryName : Payload → Option (List Nat)
  | .Ping _ => some (bs "ping")
  | .FindNode _ => some (bs "find_node")
  | .GetPeers _ => some (bs "get_peers")
  | .AnnouncePeer _ => some (bs "announce_peer")
  | .Response _ => none
  | .Error _ => none

/-- `impl ToBencode for Payload` (lib.rs). -/
def Payload.encodeB : Payload → BValue
  | .Ping p => p.encodeB
  | .FindNode f => f.encodeB
  | .GetPeers g => g.encodeB
  | .AnnouncePeer a => a.encodeB
  | .Response r => r.encodeB
  | .Error e => e.encodeB

/-- `lib.rs` `Message`: a transaction id and exactly one payload. -/
structure Message where
  transaction_id : Nat
  payload : Payload
deriving DecidableEq, Repr

/-- `Message::ping` (lib.rs). -/
def Message.ping (transaction_id : Nat) (our_node_id : List Nat) : Message :=
  ⟨transaction_id, .Ping ⟨⟨our_node_id⟩⟩⟩

/-- Byte-wise lexicographic order on keys (the `Ord` of `Vec<u8>`). -/
def lexLtB : List Nat → List Nat → Bool
  | [], [] => false
  | [], _ :: _ => true
  | _ :: _, [] => false
  | a :: as_, b :: bs_ => if a < b then true else if b < a then false else lexLtB as_ bs_

/-- Insert a pair into a key-sorted pair list. -/
def insSorted (p : List Nat × BValue) : List (List Nat × BValue) → List (List Nat × BValue)
  | [] => [p]
  | q :: qs => if lexLtB p.1 q.1 then p :: q :: qs else q :: insSorted p qs

/-- bendy's `emit_unsorted_dict` buffers pairs in a `BTreeMap`, so the dict
is written sorted by key. -/
def sortPairs (ps : List (List Nat × BValue)) : List (List Nat × BValue) :=
  ps.foldr insSorted []

/-- `impl ToBencode for Message` (lib.rs): pairs `t`, optional `q`, `y` and
the payload under its class key, emitted through `emit_unsorted_dict`. -/
def Message.encodeB (m : Message) : BValue :=
  .dict (sortPairs ([(bs "t", .str (be16 m.transaction_id))] ++
    (match m.payload.queryName with
     | some q => [(bs "q", .str q)]
     | none => []) ++
    [(bs "y", m.payload.getType.encodeB),
     (m.payload.getType.bencodeKey, m.payload.encodeB)]))

/-- `lib.rs` `A`: the generically decoded `a` dictionary. -/
structure A where
  id : Hash
  target : Option Hash
  info_hash : Option Hash
  implied_port : Option Bool
  port : Option Nat
  token : Option (List Nat)
deriving DecidableEq, Repr

/-- `From<A> for Ping` (lib.rs). -/
def Ping.fromA (a : A) : Ping := ⟨a.id⟩

/-- `TryFrom<A> for FindNode` (lib.rs). -/
def FindNode.tryFromA (a : A) : Except DecErr FindNode :=
  match a.target with
  | some t => .ok ⟨a.id, t⟩
  | none => .error (.missingField "target")

/-- `TryFrom<A> for GetPeers` (lib.rs). -/
def GetPeers.tryFromA (a : A) : Except DecErr GetPeers :=
  match a.info_hash with
  | some ih => .ok ⟨a.id, ih⟩
  | none => .error (.missingField "info_hash")

/-- `TryFrom<A> for AnnouncePeer` (lib.rs): `info_hash`, then `port`, then
`token` are required. -/
def AnnouncePeer.tryFromA (a : A) : Except DecErr AnnouncePeer :=
  match a.info_hash with
  | some ih =>
    match a.port with
    | some p =>
      match a.token with
      | some t => .ok ⟨a.id, a.implied_port, ih, p, t⟩
      | none => .error (.missingField "token")
    | none => .error (.missingField "port")
  | none => .error (.missingField "info_hash")

/-- Accumulator of `A::decode_bencode_object`'s loop (lib.rs). -/
structure AAcc where
  id : Option Hash := none
  target : Option Hash := none
  info_hash : Option Hash := none
  implied_port : Option Bool := none
  port : Option Nat := none
  token : Option (List Nat) := none
deriving DecidableEq, Repr

/-- One `match pair` arm of `A::decode_bencode_object` (lib.rs); the `id`
arm attaches context `"y"`, `implied_port` is parsed as `u8` and compared
with 0, `port` as `u16`. -/
def A.step (s : AAcc) (p : List Nat × BValue) : Except DecErr AAcc :=
  if p.1 = bs "id" then
    match withCtx "y" (Hash.decode p.2) with
    | .ok h => .ok { s with id := some h }
    | .error e => .error e
  else if p.1 = bs "target" then
    match withCtx "target" (Hash.decode p.2) with
    | .ok h => .ok { s with target := some h }
    | .error e => .error e
  else if p.1 = bs "info_hash" then
    match withCtx "info_hash" (Hash.decode p.2) with
    | .ok h => .ok { s with info_hash := some h }
    | .error e => .error e
  else if p.1 = bs "implied_port" then
    match withCtx "implied_port" (tryIntoInteger p.2) with
    | .ok t =>
      match parseU8 t with
      | some n => .ok { s with implied_port := some (0 < n) }
      | none => .error (.malformed "invalid digit found in string")
    | .error e => .error e
  else if p.1 = bs "port" then
    match withCtx "port" (tryIntoInteger p.2) with
    | .ok t =>
      match parseU16 t with
      | some n => .ok { s with port := some n }
      | none => .error (.malformed "invalid digit found in string")
    | .error e => .error e
  else if p.1 = bs "token" then
    match withCtx "token" (tryIntoBytes p.2) with
    | .ok b => .ok { s with token := some b }
    | .error e => .error e
  else .ok s

/-- `impl FromBencode for A` (lib.rs). -/
def A.decode (v : BValue) : Except DecErr A :=
  match tryIntoDict v with
  | .ok ps =>
    match walk A.step {} ps with
    | .ok s =>
      match s.id with
      | some id => .ok ⟨id, s.target, s.info_hash, s.implied_port, s.port, s.token⟩
      | none => .error (.missingField "id")
    | .error e => .error e
  | .error e => .error e

/-- Accumulator of `Message::decode_bencode_object`'s loop (lib.rs);
`y` and `q` are decoded as strings (UTF-8 bytes). -/
structure MAcc where
  transaction_id : Option Nat := none
  msg_type : Option (List Nat) := none
  query_type : Option (List Nat) := none
  a : Option A := none
  r : Option Response := none
  e : Option Error := none
deriving DecidableEq, Repr

/-- One `match pair` arm of `Message::decode_bencode_object` (lib.rs);
the `t` arm has no context, the `a` arm attaches context `"y"`. -/
def Message.step (s : MAcc) (p : List Nat × BValue) : Except DecErr MAcc :=
  if p.1 = bs "t" then
    match tryIntoBytes p.2 with
    | .ok b =>
      match b with
      | [b0, b1] => .ok { s with transaction_id := some (fromBe16 b0 b1) }
      | _ => .error (.malformed "could not convert slice to array")
    | .error e => .error e
  else if p.1 = bs "y" then
    match withCtx "y" (strDecode p.2) with
    | .ok m => .ok { s with msg_type := some m }
    | .error e => .error e
  else if p.1 = bs "q" then
    match withCtx "q" (strDecode p.2) with
    | .ok q => .ok { s with query_type := some q }
    | .error e => .error e
  else if p.1 = bs "a" then
    match withCtx "y" (A.decode p.2) with
    | .ok a => .ok { s with a := some a }
    | .error e => .error e
  else if p.1 = bs "r" then
    match withCtx "r" (Response.decode p.2) with
    | .ok r => .ok { s with r := some r }
    | .error e => .error e
  else if p.1 = bs "e" then
    match withCtx "e" (Error.decode p.2) with
    | .ok er => .ok { s with e := some er }
    | .error e => .error e
  else .ok s

/-- The post-loop dispatch of `Message::decode_bencode_object` (lib.rs):
require `t` and `y`, branch on `y`, and for queries re-dispatch on `q`;
a missing `r` payload is reported as missing field `"e"`, exactly as the
source does. -/
def Message.finalize (s : MAcc) : Except DecErr Message :=
  match s.transaction_id with
  | none => .error (.missingField "t")
  | some tid =>
    match s.msg_type with
    | none => .error (.missingField "y")
    | some mt =>
      if mt = bs "q" then
        match s.query_type with
        | none => .error (.missingField "q")
        | some qt =>
          match s.a with
          | none => .error (.missingField "a")
          | some a =>
            if qt = bs "ping" then .ok ⟨tid, .Ping (Ping.fromA a)⟩
            else if qt = bs "find_node" then
              match FindNode.tryFromA a with
              | .ok f => .ok ⟨tid, .FindNode f⟩
              | .error e => .error e
            else if qt = bs "get_peers" then
              match GetPeers.tryFromA a with
              | .ok g => .ok ⟨tid, .GetPeers g⟩
              | .error e => .error e
            else if qt = bs "announce_peer" then
              match AnnouncePeer.tryFromA a with
              | .ok ap => .ok ⟨tid, .AnnouncePeer ap⟩
              | .error e => .error e
            else .error (.malformed "'q' must be one of ping/find_node/get_peers/announce_peer")
      else if mt = bs "r" then
        match s.r with
        | some r => .ok ⟨tid, .Response r⟩
        | none => .error (.missingField "e")
      else if mt = bs "e" then
        match s.e with
        | some e => .ok ⟨tid, .Error e⟩
        | none => .error (.missingField "e")
      else .error (.malformed "'y' must be one of q/r/e")

/-- `impl FromBencode for Message` (lib.rs). -/
def Message.decode (v : BValue) : Except DecErr Message :=
  match tryIntoDict v with
  | .ok ps =>
    match walk Message.step {} ps with
    | .ok s => Message.finalize s
    | .error e => .error e
  | .error e => .error e

end Lib

/-! ## The byte layer of the bencode primitive -/

mutual

/-- Serialize a bencode value: `i<text>e`, `<len>:<bytes>`, `l...e`, `d...e`. -/
def ser : BValue → List Nat
  | .int t => 105 :: (t ++ [101])
  | .str s => natText s.length ++ 58 :: s
  | .list xs => 108 :: (serItems xs ++ [101])
  | .dict ps => 100 :: (serPairs ps ++ [101])

/-- Serialize list items in order. -/
def serItems : List BValue → List Nat
  | [] => []
  | v :: vs => ser v ++ serItems vs

/-- Serialize dictionary pairs in order: each key a string, then its value. -/
def serPairs : List (List Nat × BValue) → List Nat
  | [] => []
  | (k, v) :: ps => (natText k.length ++ 58 :: k) ++ (ser v ++ serPairs ps)

end

/-- Split the input at the first `e` terminator byte. -/
def splitAtE : List Nat → Option (List Nat × List Nat)
  | [] => none
  | c :: rest =>
    if c = 101 then some ([], rest)
    else
      match splitAtE rest with
      | some (t, r) => some (c :: t, r)
      | none => none

/-- Is the text a canonical bencode integer token: `0`, or an optional `-`
then a nonzero leading digit? -/
def isIntTok : List Nat → Bool
  | [] => false
  | c :: cs =>
    if c = 45 then
      match cs with
      | [] => false
      | d :: ds => (49 ≤ d && d ≤ 57) && ds.all isDigit
    else if c = 48 then cs = []
    else (49 ≤ c && c ≤ 57) && cs.all isDigit

/-- Parse a length-prefixed byte string token `<len>:<bytes>` (canonical
decimal length). -/
def parseStrTok (inp : List Nat) : Option (List Nat × List Nat) :=
  let ds := inp.takeWhile isDigit
  if ds = [] then none
  else if ds.head? = some 48 && ds ≠ [48] then none
  else
    match inp.drop ds.length with
    | 58 :: rest =>
      let n := digitsVal ds
      if n ≤ rest.length then some (rest.take n, rest.drop n) else none
    | _ => none

mutual

/-- Parse one bencode value (fuel-bounded recursion). -/
def parseVal : Nat → List Nat → Option (BValue × List Nat)
  | 0, _ => none
  | Nat.succ fuel, inp =>
    match inp with
    | [] => none
    | c :: rest =>
      if c = 105 then
        match splitAtE rest with
        | some (tok, rest') => if isIntTok tok then some (.int tok, rest') else none
        | none => none
      else if c = 108 then
        match parseItems fuel rest with
        | some (xs, rest') => some (.list xs, rest')
        | none => none
      else if c = 100 then
        match parsePairs fuel rest with
        | some (ps, rest') => some (.dict ps, rest')
        | none => none
      else
        match parseStrTok (c :: rest) with
        | some (s, rest') => some (.str s, rest')
        | none => none

/-- Parse list items up to the `e` terminator. -/
def parseItems : Nat → List Nat → Option (List BValue × List Nat)
  | 0, _ => none
  | Nat.succ fuel, inp =>
    match inp with
    | [] => none
    | c :: rest =>
      if c = 101 then some ([], rest)
      else
        match parseVal fuel (c :: rest) with
        | some (v, rest') =>
          match parseItems fuel rest' with
          | some (vs, rest'') => some (v :: vs, rest'')
          | none => none
        | none => none

/-- Parse dictionary pairs up to the `e` terminator. -/
def parsePairs : Nat → List Nat → Option (List (List Nat × BValue) × List Nat)
  | 0, _ => none
  | Nat.succ fuel, inp =>
    match inp with
    | [] => none
    | c :: rest =>
      if c = 101 then some ([], rest)
      else
        match parseStrTok (c :: rest) with
        | some (k, rest') =>
          match parseVal fuel rest' with
          | some (v, rest'') =>
            match parsePairs fuel rest'' with
            | some (ps, rest''') => some ((k, v) :: ps, rest''')
            | none => none
          | none => none
        | none => none

end

/-- Parse a whole buffer as a single bencode value (`from_bencode`). -/
def parseWhole (b : List Nat) : Option BValue :=
  match parseVal (2 * b.length + 2) b with
  | some (v, []) => some v
  | _ => none

/-- `Message::from_bencode` (raw.rs): bytes through the bencode primitive,
then the typed decode. -/
def Raw.Message.fromBytes (b : List Nat) : Except DecErr Raw.Message :=
  match parseWhole b with
  | some v => Raw.Message.decode v
  | none => .error (.malformed "unparsable bencode input")

/-- `Message::to_bencode` (raw.rs). -/
def Raw.Message.toBytes (m : Raw.Message) : List Nat := ser m.encodeB

/-- `Message::from_bencode` (lib.rs). -/
def Lib.Message.fromBytes (b : List Nat) : Except DecErr Lib.Message :=
  match parseWhole b with
  | some v => Lib.Message.decode v
  | none => .error (.malformed "unparsable bencode input")

/-- `Message::to_bencode` (lib.rs). -/
def Lib.Message.toBytes (m : Lib.Message) : List Nat := ser m.encodeB

/-- The value of the last `y` pair of a dictionary, in wire order. -/
def lastYVal : List (List Nat × BValue) → Option BValue
  | [] => none
  | p :: ps =>
    match lastYVal ps with
    | some v => some v
    | none => if p.1 = bs "y" then some p.2 else none

/-- Written from the claim's words, for comparison with the raw.rs decoder:
the message class determines which payloads are populated (`y="q"` implies
query type and query args present with response and error absent, `y="r"`
implies only the response present, `y="e"` implies only the error present). -/
def Raw.Message.PayloadConsistent (m : Raw.Message) : Prop :=
  (m.msg_type = .Query →
    m.query_type.isSome ∧ m.query_args.isSome ∧ m.response = none ∧ m.error = none) ∧
  (m.msg_type = .Response →
    m.query_type = none ∧ m.query_args = none ∧ m.response.isSome ∧ m.error = none) ∧
  (m.msg_type = .Error →
    m.query_type = none ∧ m.query_args = none ∧ m.response = none ∧ m.error.isSome)

/-! ### Data-model invariants (validity of a message value)

The spec's invariant set: hashes are 20 bytes, addresses 4 octets and a
16-bit port, transaction ids fit 16 bits, ports fit 16 bits, error codes fit
`i64`, Rust strings are valid UTF-8, bytes are octets. -/

/-- Valid raw.rs `Hash`: exactly 20 octets. -/
def Raw.Hash.valid (h : Raw.Hash) : Bool :=
  h.bytes.length = 20 && h.bytes.all (· < 256)

/-- Valid socket address: 4 octets and a 16-bit port. -/
def Raw.SocketAddrV4.valid (a : Raw.SocketAddrV4) : Bool :=
  a.ip.length = 4 && a.ip.all (· < 256) && a.port < 65536

/-- Valid raw.rs `Node`. -/
def Raw.Node.valid (n : Raw.Node) : Bool := n.id.valid && n.addr.valid

/-- Valid raw.rs `QueryArgs`. -/
def Raw.QueryArgs.valid (q : Raw.QueryArgs) : Bool :=
  q.sender_id.valid && q.target.all Raw.Hash.valid && q.info_hash.all Raw.Hash.valid &&
  q.port.all (fun p => p < 65536) && q.token.all (fun t => t.all (· < 256))

/-- Valid raw.rs `Response`. -/
def Raw.Response.valid (r : Raw.Response) : Bool :=
  r.sender_id.valid && r.nodes.all (fun ns => ns.all Raw.Node.valid) &&
  r.values.all (fun vs => vs.all Raw.SocketAddrV4.valid) &&
  r.token.all (fun t => t.all (· < 256))

/-- Valid raw.rs `Error`: `i64` code and UTF-8 message bytes. -/
def Raw.Error.valid (e : Raw.Error) : Bool :=
  decide (-(2 ^ 63) ≤ e.code) && decide (e.code < 2 ^ 63) && validUtf8 e.message

/-- Valid raw.rs `Message`: 16-bit transaction id and valid payload fields. -/
def Raw.Message.valid (m : Raw.Message) : Bool :=
  m.transaction_id < 65536 && m.query_args.all Raw.QueryArgs.valid &&
  m.response.all Raw.Response.valid && m.error.all Raw.Error.valid

/-- Valid lib.rs `Hash`. -/
def Lib.Hash.valid (h : Lib.Hash) : Bool :=
  h.bytes.length = 20 && h.bytes.all (· < 256)

/-- Valid lib.rs `Node`. -/
def Lib.Node.valid (n : Lib.Node) : Bool := n.id.valid && n.addr.valid

/-- Valid lib.rs `Response`. -/
def Lib.Response.valid (r : Lib.Response) : Bool :=
  r.id.valid && r.nodes.all (fun ns => ns.all Lib.Node.valid) &&
  r.values.all (fun vs => vs.all Raw.SocketAddrV4.valid) &&
  r.token.all (fun t => t.all (· < 256))

/-- Valid lib.rs `Error`. -/
def Lib.Error.valid (e : Lib.Error) : Bool :=
  decide (-(2 ^ 63) ≤ e.code) && decide (e.code < 2 ^ 63) && validUtf8 e.message

/-- Valid lib.rs `Payload`: per-variant field invariants. -/
def Lib.Payload.valid : Lib.Payload → Bool
  | .Ping p => p.id.valid
  | .FindNode f => f.id.valid && f.target.valid
  | .GetPeers g => g.id.valid && g.info_hash.valid
  | .AnnouncePeer a =>
    a.id.valid && a.info_hash.valid && a.port < 65536 && a.token.all (· < 256)
  | .Response r => r.valid
  | .Error e => e.valid

/-- Valid lib.rs `Message`. -/
def Lib.Message.valid (m : Lib.Message) : Bool :=
  m.transaction_id < 65536 && m.payload.valid

mutual

/-- Fuel bound for `parseVal` on a serialized value. -/
def bndV : BValue → Nat
  | .int _ => 1
  | .str _ => 1
  | .list xs => 1 + bndL xs
  | .dict ps => 1 + bndP ps

/-- Fuel bound for `parseItems` on serialized items. -/
def bndL : List BValue → Nat
  | [] => 1
  | v :: vs => 1 + bndV v + bndL vs

/-- Fuel bound for `parsePairs` on serialized pairs. -/
def bndP : List (List Nat × BValue) → Nat
  | [] => 1
  | p :: ps => 1 + bndV p.2 + bndP ps

end

mutual

/-- Well-formed bencode value: every integer text is a canonical token
(which is all the encoders ever emit). -/
def WFv : BValue → Bool
  | .int t => isIntTok t
  | .str _ => true
  | .list xs => WFl xs
  | .dict ps => WFp ps

/-- Well-formed item list. -/
def WFl : List BValue → Bool
  | [] => true
  | v :: vs => WFv v && WFl vs

/-- Well-formed pair list. -/
def WFp : List (List Nat × BValue) → Bool
  | [] => true
  | p :: ps => WFv p.2 && WFp ps

end

/-! ## Claim theorems -/

/-- C6: decoding a `Hash` from a bencode byte-string (both implementations)
succeeds exactly on 20-byte inputs, returning those bytes, and fails with a
malformed-content error on any other length. -/
theorem hash_decode_length_law (s : List Nat) :
    (s.length = 20 →
      Raw.Hash.decode (.str s) = .ok ⟨s⟩ ∧ Lib.Hash.decode (.str s) = .ok ⟨s⟩) ∧
    (s.length ≠ 20 →
      Raw.Hash.decode (.str s) = .error (.malformed "expected 20 bytes str") ∧
      Lib.Hash.decode (.str s) = .error (.malformed "could not convert slice to array")) := by
  constructor <;> intro h <;>
    simp [Raw.Hash.decode, Lib.Hash.decode, tryIntoBytes, h]

/-- Witness for C6: the law evaluated at a 20-byte and at a 3-byte input. -/
theorem hash_decode_length_law_witness :
    (Raw.Hash.decode (.str (bs "abcdefghij0123456789")) = .ok ⟨bs "abcdefghij0123456789"⟩) ∧
    (Raw.Hash.decode (.str (bs "abc")) = .error (.malformed "expected 20 bytes str")) :=
  ⟨((hash_decode_length_law (bs "abcdefghij0123456789")).1 (by decide)).1,
   ((hash_decode_length_law (bs "abc")).2 (by decide)).1⟩

/-- C4: decoding a dictionary whose `y` is `"r"` with no `r` key fails in the
`lib.rs` decoder with a missing-field error naming `"e"`, not `"r"`. -/
theorem missing_r_reported_as_e :
    Lib.Message.decode (.dict [(bs "t", .str [97, 97]), (bs "y", .str (bs "r"))]) =
      .error (.missingField "e") := by rfl

/-- C10: the raw.rs query-args decoder accepts any bencode integer for
`implied_port` and sets the flag to whether the integer's decimal text is
exactly `"1"`; no range validation is applied. -/
theorem implied_port_text_equality (t s : List Nat) (hs : s.length = 20)
    (ht : isIntTok t = true) :
    Raw.QueryArgs.decode (.dict [(bs "id", .str s), (bs "implied_port", .int t)]) =
      .ok ⟨⟨s⟩, none, none, some (t = bs "1"), none, none⟩ := by
  simp [Raw.QueryArgs.decode, tryIntoDict, walk, Raw.QueryArgs.step, withCtx,
    Raw.Hash.decode, tryIntoBytes, tryIntoInteger, hs, bs]

/-- Witness for C10: integer texts `2`, `10` and `-1` all decode, each to a
`false` flag, and `1` decodes to `true`. -/
theorem implied_port_text_equality_witness :
    (Raw.QueryArgs.decode (.dict [(bs "id", .str (bs "abcdefghij0123456789")),
        (bs "implied_port", .int (bs "2"))]) =
      .ok ⟨⟨bs "abcdefghij0123456789"⟩, none, none, some false, none, none⟩) ∧
    (Raw.QueryArgs.decode (.dict [(bs "id", .str (bs "abcdefghij0123456789")),
        (bs "implied_port", .int (bs "10"))]) =
      .ok ⟨⟨bs "abcdefghij0123456789"⟩, none, none, some false, none, none⟩) ∧
    (Raw.QueryArgs.decode (.dict [(bs "id", .str (bs "abcdefghij0123456789")),
        (bs "implied_port", .int (bs "-1"))]) =
      .ok ⟨⟨bs "abcdefghij0123456789"⟩, none, none, some false, none, none⟩) ∧
    (Raw.QueryArgs.decode (.dict [(bs "id", .str (bs "abcdefghij0123456789")),
        (bs "implied_port", .int (bs "1"))]) =
      .ok ⟨⟨bs "abcdefghij0123456789"⟩, none, none, some true, none, none⟩) := by
  refine ⟨?_, ?_, ?_, ?_⟩ <;>
    [exact implied_port_text_equality (bs "2") _ (by decide) (by decide);
     exact implied_port_text_equality (bs "10") _ (by decide) (by decide);
     exact implied_port_text_equality (bs "-1") _ (by decide) (by decide);
     exact implied_port_text_equality (bs "1") _ (by decide) (by decide)]

/-- C9: a duplicated recognized key does not fail; the later occurrence in
wire order wins, both for `t` in the raw.rs top-level loop and for `id` in
the lib.rs `a`-dictionary loop. -/
theorem duplicate_key_last_wins (c d c' d' : Nat) (s1 s2 : List Nat)
    (h1 : s1.length = 20) (h2 : s2.length = 20) :
    (Raw.Message.decode (.dict [(bs "t", .str [c, d]), (bs "t", .str [c', d']),
        (bs "y", .str (bs "q"))]) =
      .ok ⟨fromBe16 c' d', .Query, none, none, none, none⟩) ∧
    (Lib.A.decode (.dict [(bs "id", .str s1), (bs "id", .str s2)]) =
      .ok ⟨⟨s2⟩, none, none, none, none, none⟩) := by
  constructor
  · simp [Raw.Message.decode, tryIntoDict, walk, Raw.Message.step, withCtx,
      Raw.MessageType.decode, tryIntoBytes, bs]
  · simp [Lib.A.decode, tryIntoDict, walk, Lib.A.step, withCtx,
      Lib.Hash.decode, tryIntoBytes, h1, h2, bs]

/-- Witness for C9: concrete duplicated `t` and `id` entries. -/
theorem duplicate_key_last_wins_witness :
    (Raw.Message.decode (.dict [(bs "t", .str [97, 97]), (bs "t", .str [98, 99]),
        (bs "y", .str (bs "q"))]) =
      .ok ⟨fromBe16 98 99, .Query, none, none, none, none⟩) ∧
    (Lib.A.decode (.dict [(bs "id", .str (bs "abcdefghij0123456789")),
        (bs "id", .str (bs "mnopqrstuvwxyz123456"))]) =
      .ok ⟨⟨bs "mnopqrstuvwxyz123456"⟩, none, none, none, none, none⟩) :=
  duplicate_key_last_wins 97 97 98 99 (bs "abcdefghij0123456789")
    (bs "mnopqrstuvwxyz123456") (by decide) (by decide)

theorem chunks26F_nil (fuel : Nat) : Raw.chunks26F fuel [] = [] := by
  cases fuel <;> simp [Raw.chunks26F]

theorem nodesOfChunks_ok_of_dvd :
    ∀ fuel (l : List Nat), l.length < fuel → l.length % 26 = 0 →
      Raw.nodesOfChunks (Raw.chunks26F fuel l) = .ok ((Raw.chunks26F fuel l).map Raw.Node.fromChunk) := by
  intro fuel
  induction fuel with
  | zero => intro l h; omega
  | succ f ih =>
    intro l hlt hmod
    by_cases hnil : l = []
    · subst hnil; simp [Raw.chunks26F, Raw.nodesOfChunks]
    · have hpos : 0 < l.length := List.length_pos.mpr hnil
      have h26 : 26 ≤ l.length := by omega
      have htake : (l.take 26).length = 26 := by
        simp [List.length_take]; omega
      have hdrop : (l.drop 26).length = l.length - 26 := List.length_drop 26 l
      have hrec := ih (l.drop 26) (by omega) (by omega)
      simp only [Raw.chunks26F, if_neg hnil, Raw.nodesOfChunks, htake, if_pos rfl, hrec,
        List.map_cons]
      simp

theorem nodesOfChunks_fail_of_not_dvd :
    ∀ fuel (l : List Nat), l.length < fuel → l.length % 26 ≠ 0 →
      Raw.nodesOfChunks (Raw.chunks26F fuel l) = .error (.malformed "node must be 26 bytes") := by
  intro fuel
  induction fuel with
  | zero => intro l h; omega
  | succ f ih =>
    intro l hlt hmod
    have hnil : l ≠ [] := by
      intro h; subst h; simp at hmod
    by_cases hshort : l.length < 26
    · have htake : l.take 26 = l := List.take_of_length_le (by omega)
      have hdrop : l.drop 26 = [] := List.drop_eq_nil_of_le (by omega)
      have hne : l.length ≠ 26 := by omega
      simp [Raw.chunks26F, if_neg hnil, htake, hdrop, chunks26F_nil, Raw.nodesOfChunks, hne]
    · have htake : (l.take 26).length = 26 := by
        simp [List.length_take]; omega
      have hdrop : (l.drop 26).length = l.length - 26 := List.length_drop 26 l
      have hrec := ih (l.drop 26) (by omega) (by omega)
      simp [Raw.chunks26F, if_neg hnil, Raw.nodesOfChunks, htake, hrec]

theorem libNodesFromChunks_ok_of_dvd :
    ∀ fuel (l : List Nat), l.length < fuel → l.length % 26 = 0 →
      Lib.nodesFromChunks (Raw.chunks26F fuel l) = .ok ((Raw.chunks26F fuel l).map Lib.Node.fromChunk) := by
  intro fuel
  induction fuel with
  | zero => intro l h; omega
  | succ f ih =>
    intro l hlt hmod
    by_cases hnil : l = []
    · subst hnil; simp [Raw.chunks26F, Lib.nodesFromChunks]
    · have hpos : 0 < l.length := List.length_pos.mpr hnil
      have h26 : 26 ≤ l.length := by omega
      have htake : (l.take 26).length = 26 := by
        simp [List.length_take]; omega
      have hdrop : (l.drop 26).length = l.length - 26 := List.length_drop 26 l
      have hrec := ih (l.drop 26) (by omega) (by omega)
      simp only [Raw.chunks26F, if_neg hnil, Lib.nodesFromChunks, htake, if_pos rfl, hrec,
        List.map_cons]
      simp

theorem libNodesFromChunks_fail_of_not_dvd :
    ∀ fuel (l : List Nat), l.length < fuel → l.length % 26 ≠ 0 →
      Lib.nodesFromChunks (Raw.chunks26F fuel l) =
        .error (.malformed "could not convert slice to array") := by
  intro fuel
  induction fuel with
  | zero => intro l h; omega
  | succ f ih =>
    intro l hlt hmod
    have hnil : l ≠ [] := by
      intro h; subst h; simp at hmod
    by_cases hshort : l.length < 26
    · have htake : l.take 26 = l := List.take_of_length_le (by omega)
      have hdrop : l.drop 26 = [] := List.drop_eq_nil_of_le (by omega)
      have hne : l.length ≠ 26 := by omega
      simp [Raw.chunks26F, if_neg hnil, htake, hdrop, chunks26F_nil, Lib.nodesFromChunks, hne]
    · have htake : (l.take 26).length = 26 := by
        simp [List.length_take]; omega
      have hdrop : (l.drop 26).length = l.length - 26 := List.length_drop 26 l
      have hrec := ih (l.drop 26) (by omega) (by omega)
      simp [Raw.chunks26F, if_neg hnil, Lib.nodesFromChunks, htake, hrec]

/-- C7: node-list decoding (raw.rs `nodes` byte-string and lib.rs
`Vec<Node>::from_bytes`) succeeds exactly when the length is a multiple of
26, yielding one `Node` per consecutive 26-byte chunk in input order, and
fails with a malformed error otherwise. -/
theorem node_list_chunk_law (s : List Nat) :
    (s.length % 26 = 0 →
      Raw.nodeListDecode (.str s) = .ok ((Raw.chunks26 s).map Raw.Node.fromChunk) ∧
      Lib.nodesFromBytes s = .ok ((Raw.chunks26 s).map Lib.Node.fromChunk)) ∧
    (s.length % 26 ≠ 0 →
      Raw.nodeListDecode (.str s) = .error (.malformed "node must be 26 bytes") ∧
      Lib.nodesFromBytes s = .error (.malformed "could not convert slice to array")) := by
  constructor <;> intro h
  · exact ⟨by
      simpa [Raw.nodeListDecode, tryIntoBytes, Raw.chunks26] using
        nodesOfChunks_ok_of_dvd (s.length + 1) s (by omega) h,
      by
      simpa [Lib.nodesFromBytes, Raw.chunks26] using
        libNodesFromChunks_ok_of_dvd (s.length + 1) s (by omega) h⟩
  · exact ⟨by
      simpa [Raw.nodeListDecode, tryIntoBytes, Raw.chunks26] using
        nodesOfChunks_fail_of_not_dvd (s.length + 1) s (by omega) h,
      by
      simpa [Lib.nodesFromBytes, Raw.chunks26] using
        libNodesFromChunks_fail_of_not_dvd (s.length + 1) s (by omega) h⟩

/-- Witness for C7: the 52-byte test vector splits into its two nodes, and a
5-byte input fails. -/
theorem node_list_chunk_law_witness :
    (Raw.nodeListDecode (.str (bs "mnopqrstuvwxyz123456ABCDaa11111111111111111111EFGHaa")) =
      .ok [⟨⟨bs "mnopqrstuvwxyz123456"⟩, ⟨[65, 66, 67, 68], 24929⟩⟩,
           ⟨⟨bs "11111111111111111111"⟩, ⟨[69, 70, 71, 72], 24929⟩⟩]) ∧
    (Raw.nodeListDecode (.str (bs "abcde")) =
      .error (.malformed "node must be 26 bytes")) := by
  constructor
  · have h := ((node_list_chunk_law
      (bs "mnopqrstuvwxyz123456ABCDaa11111111111111111111EFGHaa")).1 (by decide)).1
    rw [h]; rfl
  · exact ((node_list_chunk_law (bs "abcde")).2 (by decide)).1

/-- C8: an extra pair with a key outside the recognized schema keys, inserted
anywhere, leaves every dictionary decode (top-level message, query-args `a`,
response `r`; both implementations) unchanged. -/
theorem unknown_key_ignored (k : List Nat) (v : BValue) (ps1 ps2 : List (List Nat × BValue)) :
    (k ∉ [bs "t", bs "y", bs "q", bs "a", bs "r", bs "e"] →
      Raw.Message.decode (.dict (ps1 ++ (k, v) :: ps2)) =
        Raw.Message.decode (.dict (ps1 ++ ps2)) ∧
      Lib.Message.decode (.dict (ps1 ++ (k, v) :: ps2)) =
        Lib.Message.decode (.dict (ps1 ++ ps2))) ∧
    (k ∉ [bs "id", bs "implied_port", bs "info_hash", bs "port", bs "target", bs "token"] →
      Raw.QueryArgs.decode (.dict (ps1 ++ (k, v) :: ps2)) =
        Raw.QueryArgs.decode (.dict (ps1 ++ ps2)) ∧
      Lib.A.decode (.dict (ps1 ++ (k, v) :: ps2)) =
        Lib.A.decode (.dict (ps1 ++ ps2))) ∧
    (k ∉ [bs "id", bs "nodes", bs "values", bs "token"] →
      Raw.Response.decode (.dict (ps1 ++ (k, v) :: ps2)) =
        Raw.Response.decode (.dict (ps1 ++ ps2)) ∧
      Lib.Response.decode (.dict (ps1 ++ (k, v) :: ps2)) =
        Lib.Response.decode (.dict (ps1 ++ ps2))) := by
  refine ⟨fun hk => ?_, fun hk => ?_, fun hk => ?_⟩ <;>
    simp only [List.mem_cons, List.mem_singleton, not_or] at hk
  · obtain ⟨h1, h2, h3, h4, h5, h6, -⟩ := hk
    have hr : ∀ s, Raw.Message.step s (k, v) = .ok s := fun s => by
      simp [Raw.Message.step, h1, h2, h3, h4, h5, h6]
    have hl : ∀ s, Lib.Message.step s (k, v) = .ok s := fun s => by
      simp [Lib.Message.step, h1, h2, h3, h4, h5, h6]
    constructor
    · simp only [Raw.Message.decode, tryIntoDict, walk_skip _ _ _ _ _ hr]
    · simp only [Lib.Message.decode, tryIntoDict, walk_skip _ _ _ _ _ hl]
  · obtain ⟨h1, h2, h3, h4, h5, h6, -⟩ := hk
    have hr : ∀ s, Raw.QueryArgs.step s (k, v) = .ok s := fun s => by
      simp [Raw.QueryArgs.step, h1, h2, h3, h4, h5, h6]
    have hl : ∀ s, Lib.A.step s (k, v) = .ok s := fun s => by
      simp [Lib.A.step, h1, h2, h3, h4, h5, h6]
    constructor
    · simp only [Raw.QueryArgs.decode, tryIntoDict, walk_skip _ _ _ _ _ hr]
    · simp only [Lib.A.decode, tryIntoDict, walk_skip _ _ _ _ _ hl]
  · obtain ⟨h1, h2, h3, h4, -⟩ := hk
    have hr : ∀ s, Raw.Response.step s (k, v) = .ok s := fun s => by
      simp [Raw.Response.step, h1, h2, h3, h4]
    have hl : ∀ s, Lib.Response.step s (k, v) = .ok s := fun s => by
      simp [Lib.Response.step, h1, h2, h3, h4]
    constructor
    · simp only [Raw.Response.decode, tryIntoDict, walk_skip _ _ _ _ _ hr]
    · simp only [Lib.Response.decode, tryIntoDict, walk_skip _ _ _ _ _ hl]

/-- Witness for C8: inserting the unknown key `"x"` into the ping top-level
dictionary, into an `a` dictionary, and into an `r` dictionary. -/
theorem unknown_key_ignored_witness :
    (Raw.Message.decode (.dict ([(bs "t", .str [97, 97])] ++ (bs "x", .int (bs "7")) ::
        [(bs "y", .str (bs "q"))])) =
      Raw.Message.decode (.dict ([(bs "t", .str [97, 97])] ++ [(bs "y", .str (bs "q"))]))) ∧
    (Raw.QueryArgs.decode (.dict ([] ++ (bs "x", .int (bs "7")) ::
        [(bs "id", .str (bs "abcdefghij0123456789"))])) =
      Raw.QueryArgs.decode (.dict ([] ++ [(bs "id", .str (bs "abcdefghij0123456789"))]))) ∧
    (Lib.Response.decode (.dict ([(bs "id", .str (bs "abcdefghij0123456789"))] ++
        (bs "x", .int (bs "7")) :: [])) =
      Lib.Response.decode (.dict ([(bs "id", .str (bs "abcdefghij0123456789"))] ++ []))) :=
  ⟨((unknown_key_ignored (bs "x") (.int (bs "7")) [(bs "t", .str [97, 97])]
      [(bs "y", .str (bs "q"))]).1 (by decide)).1,
   ((unknown_key_ignored (bs "x") (.int (bs "7")) []
      [(bs "id", .str (bs "abcdefghij0123456789"))]).2.1 (by decide)).1,
   ((unknown_key_ignored (bs "x") (.int (bs "7"))
      [(bs "id", .str (bs "abcdefghij0123456789"))] []).2.2 (by decide)).2⟩

theorem walk_preserve {σ α : Type} (step : σ → List Nat × BValue → Except DecErr σ)
    (f : σ → α) (P : List Nat × BValue → Prop)
    (hstep : ∀ s p st, P p → step s p = .ok st → f st = f s) :
    ∀ ps s st, (∀ p ∈ ps, P p) → walk step s ps = .ok st → f st = f s := by
  intro ps
  induction ps with
  | nil =>
    intro s st _ h
    simp only [walk] at h
    cases h
    rfl
  | cons p ps ih =>
    intro s st hP h
    simp only [walk] at h
    cases hs : step s p with
    | ok s₁ =>
      rw [hs] at h
      have h1 := ih s₁ st (fun q hq => hP q (List.mem_cons_of_mem p hq)) h
      rw [h1, hstep s p s₁ (hP p (List.mem_cons_self p ps)) hs]
    | error e => rw [hs] at h; cases h

theorem A_step_preserve_target (s : Lib.AAcc) (p : List Nat × BValue) (st : Lib.AAcc)
    (hne : p.1 ≠ bs "target") (h : Lib.A.step s p = .ok st) : st.target = s.target := by
  simp only [Lib.A.step, hne, if_false] at h
  repeat' split at h
  all_goals first
    | (injection h with h; subst h; rfl)
    | exact absurd h (by simp)

theorem A_step_preserve_info_hash (s : Lib.AAcc) (p : List Nat × BValue) (st : Lib.AAcc)
    (hne : p.1 ≠ bs "info_hash") (h : Lib.A.step s p = .ok st) : st.info_hash = s.info_hash := by
  simp only [Lib.A.step, hne, if_false] at h
  repeat' split at h
  all_goals first
    | (injection h with h; subst h; rfl)
    | exact absurd h (by simp)

theorem A_step_preserve_port (s : Lib.AAcc) (p : List Nat × BValue) (st : Lib.AAcc)
    (hne : p.1 ≠ bs "port") (h : Lib.A.step s p = .ok st) : st.port = s.port := by
  simp only [Lib.A.step, hne, if_false] at h
  repeat' split at h
  all_goals first
    | (injection h with h; subst h; rfl)
    | exact absurd h (by simp)

theorem A_step_preserve_token (s : Lib.AAcc) (p : List Nat × BValue) (st : Lib.AAcc)
    (hne : p.1 ≠ bs "token") (h : Lib.A.step s p = .ok st) : st.token = s.token := by
  simp only [Lib.A.step, hne, if_false] at h
  repeat' split at h
  all_goals first
    | (injection h with h; subst h; rfl)
    | exact absurd h (by simp)

theorem A_decode_fields (aps : List (List Nat × BValue)) (a0 : Lib.A)
    (ha : Lib.A.decode (.dict aps) = .ok a0) :
    ∃ s₀, walk Lib.A.step {} aps = .ok s₀ ∧ a0.target = s₀.target ∧
      a0.info_hash = s₀.info_hash ∧ a0.port = s₀.port ∧ a0.token = s₀.token := by
  simp only [Lib.A.decode, tryIntoDict] at ha
  cases hw : walk Lib.A.step {} aps with
  | error e => rw [hw] at ha; cases ha
  | ok s₀ =>
    rw [hw] at ha
    simp only at ha
    cases hid : s₀.id with
    | none => rw [hid] at ha; cases ha
    | some id =>
      rw [hid] at ha
      simp only at ha
      injection ha with ha
      exact ⟨s₀, rfl, by rw [← ha], by rw [← ha], by rw [← ha], by rw [← ha]⟩

/-- C5: in the lib.rs decoder, each query kind enforces its required subset
of the `a` dictionary: `find_node` without a `target` key fails with
`MissingField("target")`; `get_peers` without `info_hash` fails with
`MissingField("info_hash")`; `announce_peer` requires `info_hash`, `port`
and `token`, failing with the corresponding missing-field error. -/
theorem query_required_fields (aps : List (List Nat × BValue)) (a0 : Lib.A)
    (ha : Lib.A.decode (.dict aps) = .ok a0) :
    ((∀ p ∈ aps, p.1 ≠ bs "target") →
      Lib.Message.decode (.dict [(bs "a", .dict aps), (bs "q", .str (bs "find_node")),
        (bs "t", .str [97, 97]), (bs "y", .str (bs "q"))]) =
        .error (.missingField "target")) ∧
    ((∀ p ∈ aps, p.1 ≠ bs "info_hash") →
      Lib.Message.decode (.dict [(bs "a", .dict aps), (bs "q", .str (bs "get_peers")),
        (bs "t", .str [97, 97]), (bs "y", .str (bs "q"))]) =
        .error (.missingField "info_hash")) ∧
    ((∀ p ∈ aps, p.1 ≠ bs "info_hash") →
      Lib.Message.decode (.dict [(bs "a", .dict aps), (bs "q", .str (bs "announce_peer")),
        (bs "t", .str [97, 97]), (bs "y", .str (bs "q"))]) =
        .error (.missingField "info_hash")) ∧
    (a0.info_hash.isSome → (∀ p ∈ aps, p.1 ≠ bs "port") →
      Lib.Message.decode (.dict [(bs "a", .dict aps), (bs "q", .str (bs "announce_peer")),
        (bs "t", .str [97, 97]), (bs "y", .str (bs "q"))]) =
        .error (.missingField "port")) ∧
    (a0.info_hash.isSome → a0.port.isSome → (∀ p ∈ aps, p.1 ≠ bs "token") →
      Lib.Message.decode (.dict [(bs "a", .dict aps), (bs "q", .str (bs "announce_peer")),
        (bs "t", .str [97, 97]), (bs "y", .str (bs "q"))]) =
        .error (.missingField "token")) := by
  obtain ⟨s₀, hw, ht, hih, hp, htk⟩ := A_decode_fields aps a0 ha
  have hs1 : Lib.Message.step {} (bs "a", .dict aps) = .ok { a := some a0 } := by
    simp [Lib.Message.step, bs, ha, withCtx]
  have hdecFN : Lib.Message.decode (.dict [(bs "a", .dict aps), (bs "q", .str (bs "find_node")),
      (bs "t", .str [97, 97]), (bs "y", .str (bs "q"))]) =
      (match Lib.FindNode.tryFromA a0 with
       | .ok f => .ok ⟨24929, .FindNode f⟩
       | .error e => .error e) := by
    simp only [Lib.Message.decode, tryIntoDict, walk, hs1]
    rfl
  have hdecGP : Lib.Message.decode (.dict [(bs "a", .dict aps), (bs "q", .str (bs "get_peers")),
      (bs "t", .str [97, 97]), (bs "y", .str (bs "q"))]) =
      (match Lib.GetPeers.tryFromA a0 with
       | .ok g => .ok ⟨24929, .GetPeers g⟩
       | .error e => .error e) := by
    simp only [Lib.Message.decode, tryIntoDict, walk, hs1]
    rfl
  have hdecAP : Lib.Message.decode (.dict [(bs "a", .dict aps), (bs "q", .str (bs "announce_peer")),
      (bs "t", .str [97, 97]), (bs "y", .str (bs "q"))]) =
      (match Lib.AnnouncePeer.tryFromA a0 with
       | .ok ap => .ok ⟨24929, .AnnouncePeer ap⟩
       | .error e => .error e) := by
    simp only [Lib.Message.decode, tryIntoDict, walk, hs1]
    rfl
  refine ⟨fun hnk => ?_, fun hnk => ?_, fun hnk => ?_,
    fun hihs hnk => ?_, fun hihs hps hnk => ?_⟩
  · have htn : a0.target = none := by
      rw [ht]
      exact walk_preserve Lib.A.step Lib.AAcc.target (fun p => p.1 ≠ bs "target")
        A_step_preserve_target aps {} s₀ hnk hw
    rw [hdecFN]
    simp only [Lib.FindNode.tryFromA, htn]
  · have hn : a0.info_hash = none := by
      rw [hih]
      exact walk_preserve Lib.A.step Lib.AAcc.info_hash (fun p => p.1 ≠ bs "info_hash")
        A_step_preserve_info_hash aps {} s₀ hnk hw
    rw [hdecGP]
    simp only [Lib.GetPeers.tryFromA, hn]
  · have hn : a0.info_hash = none := by
      rw [hih]
      exact walk_preserve Lib.A.step Lib.AAcc.info_hash (fun p => p.1 ≠ bs "info_hash")
        A_step_preserve_info_hash aps {} s₀ hnk hw
    rw [hdecAP]
    simp only [Lib.AnnouncePeer.tryFromA, hn]
  · have hn : a0.port = none := by
      rw [hp]
      exact walk_preserve Lib.A.step Lib.AAcc.port (fun p => p.1 ≠ bs "port")
        A_step_preserve_port aps {} s₀ hnk hw
    obtain ⟨ih0, hihEq⟩ := Option.isSome_iff_exists.mp hihs
    rw [hdecAP]
    simp only [Lib.AnnouncePeer.tryFromA, hihEq, hn]
  · have hn : a0.token = none := by
      rw [htk]
      exact walk_preserve Lib.A.step Lib.AAcc.token (fun p => p.1 ≠ bs "token")
        A_step_preserve_token aps {} s₀ hnk hw
    obtain ⟨ih0, hihEq⟩ := Option.isSome_iff_exists.mp hihs
    obtain ⟨p0, hpEq⟩ := Option.isSome_iff_exists.mp hps
    rw [hdecAP]
    simp only [Lib.AnnouncePeer.tryFromA, hihEq, hpEq, hn]

/-- Witness for C5: concrete `a` dictionaries exercising the find_node,
get_peers and announce_peer requirements. -/
theorem query_required_fields_witness :
    (Lib.Message.decode (.dict [(bs "a", .dict [(bs "id", .str (bs "abcdefghij0123456789"))]),
        (bs "q", .str (bs "find_node")), (bs "t", .str [97, 97]), (bs "y", .str (bs "q"))]) =
      .error (.missingField "target")) ∧
    (Lib.Message.decode (.dict [(bs "a", .dict [(bs "id", .str (bs "abcdefghij0123456789"))]),
        (bs "q", .str (bs "get_peers")), (bs "t", .str [97, 97]), (bs "y", .str (bs "q"))]) =
      .error (.missingField "info_hash")) ∧
    (Lib.Message.decode (.dict [(bs "a", .dict [(bs "id", .str (bs "abcdefghij0123456789")),
        (bs "info_hash", .str (bs "mnopqrstuvwxyz123456"))]),
        (bs "q", .str (bs "announce_peer")), (bs "t", .str [97, 97]), (bs "y", .str (bs "q"))]) =
      .error (.missingField "port")) ∧
    (Lib.Message.decode (.dict [(bs "a", .dict [(bs "id", .str (bs "abcdefghij0123456789")),
        (bs "info_hash", .str (bs "mnopqrstuvwxyz123456")),
        (bs "port", .int (bs "6881"))]),
        (bs "q", .str (bs "announce_peer")), (bs "t", .str [97, 97]), (bs "y", .str (bs "q"))]) =
      .error (.missingField "token")) :=
  ⟨(query_required_fields [(bs "id", .str (bs "abcdefghij0123456789"))]
      ⟨⟨bs "abcdefghij0123456789"⟩, none, none, none, none, none⟩ (by rfl)).1 (by decide),
   (query_required_fields [(bs "id", .str (bs "abcdefghij0123456789"))]
      ⟨⟨bs "abcdefghij0123456789"⟩, none, none, none, none, none⟩ (by rfl)).2.1 (by decide),
   (query_required_fields [(bs "id", .str (bs "abcdefghij0123456789")),
      (bs "info_hash", .str (bs "mnopqrstuvwxyz123456"))]
      ⟨⟨bs "abcdefghij0123456789"⟩, none, some ⟨bs "mnopqrstuvwxyz123456"⟩, none, none, none⟩
      (by rfl)).2.2.2.1 (by rfl) (by decide),
   (query_required_fields [(bs "id", .str (bs "abcdefghij0123456789")),
      (bs "info_hash", .str (bs "mnopqrstuvwxyz123456")), (bs "port", .int (bs "6881"))]
      ⟨⟨bs "abcdefghij0123456789"⟩, none, some ⟨bs "mnopqrstuvwxyz123456"⟩, none, some 6881, none⟩
      (by rfl)).2.2.2.2 (by rfl) (by rfl) (by decide)⟩

theorem Mstep_y_sets (s : Lib.MAcc) (p : List Nat × BValue) (st : Lib.MAcc)
    (h : Lib.Message.step s p = .ok st) (hy : p.1 = bs "y") :
    ∃ yb, strDecode p.2 = .ok yb ∧ st.msg_type = some yb := by
  simp only [Lib.Message.step, hy, bs] at h
  cases hr : strDecode p.2 with
  | error e =>
    rw [show (List.map Char.toNat "y".data) = [121] from rfl] at h
    simp [hr, withCtx] at h
  | ok yb =>
    rw [show (List.map Char.toNat "y".data) = [121] from rfl] at h
    simp only [hr, withCtx] at h
    refine ⟨yb, rfl, ?_⟩
    simp at h
    rw [← h]

theorem Mstep_preserve_msg_type (s : Lib.MAcc) (p : List Nat × BValue) (st : Lib.MAcc)
    (hne : p.1 ≠ bs "y") (h : Lib.Message.step s p = .ok st) : st.msg_type = s.msg_type := by
  simp only [Lib.Message.step, hne, if_false] at h
  repeat' split at h
  all_goals first
    | (injection h with h; subst h; rfl)
    | exact absurd h (by simp)

theorem walk_msg_type :
    ∀ (ps : List (List Nat × BValue)) (s st : Lib.MAcc),
      walk Lib.Message.step s ps = .ok st →
      (lastYVal ps = none ∧ st.msg_type = s.msg_type) ∨
      (∃ yv yb, lastYVal ps = some yv ∧ strDecode yv = .ok yb ∧ st.msg_type = some yb) := by
  intro ps
  induction ps with
  | nil =>
    intro s st h
    simp only [walk] at h
    cases h
    exact .inl ⟨rfl, rfl⟩
  | cons p ps ih =>
    intro s st h
    simp only [walk] at h
    cases hs : Lib.Message.step s p with
    | error e => rw [hs] at h; cases h
    | ok s₁ =>
      rw [hs] at h
      rcases ih s₁ st h with ⟨hnone, hpres⟩ | ⟨yv, yb, hlast, hdec, hmt⟩
      · by_cases hy : p.1 = bs "y"
        · obtain ⟨yb, hdec, hmt⟩ := Mstep_y_sets s p s₁ hs hy
          exact .inr ⟨p.2, yb, by simp [lastYVal, hnone, hy], hdec, by rw [hpres, hmt]⟩
        · exact .inl ⟨by simp [lastYVal, hnone, hy],
            by rw [hpres, Mstep_preserve_msg_type s p s₁ hy hs]⟩
      · exact .inr ⟨yv, yb, by simp [lastYVal, hlast], hdec, hmt⟩

theorem finalize_class (st : Lib.MAcc) (m : Lib.Message)
    (h : Lib.Message.finalize st = .ok m) :
    ∃ yb, st.msg_type = some yb ∧
      ((yb = bs "q" ∧ m.payload.getType = .Query) ∨
       (yb = bs "r" ∧ m.payload.getType = .Response) ∨
       (yb = bs "e" ∧ m.payload.getType = .Error)) := by
  simp only [Lib.Message.finalize] at h
  repeat' split at h
  all_goals cases h
  all_goals first
    | exact ⟨_, by assumption, .inl ⟨by assumption, rfl⟩⟩
    | exact ⟨_, by assumption, .inr (.inl ⟨by assumption, rfl⟩)⟩
    | exact ⟨_, by assumption, .inr (.inr ⟨by assumption, rfl⟩)⟩

/-- Counterexample for C2: the raw.rs decoder accepts a dictionary holding
only `t` and `y="q"`, yielding a query-class message with no query type and
no query args, so the claimed payload-consistency invariant fails. -/
theorem payload_consistency_fails_raw :
    Raw.Message.decode (.dict [(bs "t", .str [97, 97]), (bs "y", .str (bs "q"))]) =
      .ok ⟨24929, .Query, none, none, none, none⟩ ∧
    ¬Raw.Message.PayloadConsistent ⟨24929, .Query, none, none, none, none⟩ := by
  constructor
  · rfl
  · intro hc
    have := (hc.1 rfl).1
    simp [Option.isSome] at this

/-- C2 (amended): every message produced by a successful lib.rs decode
carries exactly one payload (the `Payload` sum), and the payload's class
agrees with the decoded value of the dictionary's last `y` key (`"q"` gives
a query payload, `"r"` a response, `"e"` an error); the raw.rs decoder does
not enforce this. -/
theorem lib_payload_class_matches_y (ps : List (List Nat × BValue)) (m : Lib.Message)
    (h : Lib.Message.decode (.dict ps) = .ok m) :
    ∃ yv yb, lastYVal ps = some yv ∧ strDecode yv = .ok yb ∧
      ((yb = bs "q" ∧ m.payload.getType = .Query) ∨
       (yb = bs "r" ∧ m.payload.getType = .Response) ∨
       (yb = bs "e" ∧ m.payload.getType = .Error)) := by
  simp only [Lib.Message.decode, tryIntoDict] at h
  cases hw : walk Lib.Message.step {} ps with
  | error e => rw [hw] at h; cases h
  | ok st =>
    rw [hw] at h
    simp only at h
    obtain ⟨yb, hmt, hcls⟩ := finalize_class st m h
    rcases walk_msg_type ps {} st hw with ⟨-, hpres⟩ | ⟨yv, yb', hlast, hdec, hmt'⟩
    · rw [hmt] at hpres; cases hpres
    · rw [hmt] at hmt'
      injection hmt' with hmt'
      exact ⟨yv, yb, hlast, by rw [← hmt'] at hdec; exact hdec, hcls⟩

/-- Witness for the amended C2: the ping wire dictionary decodes to a query
payload whose class agrees with its `y` value. -/
theorem lib_payload_class_matches_y_witness :
    ∃ yv yb,
      lastYVal [(bs "a", .dict [(bs "id", .str (bs "abcdefghij0123456789"))]),
        (bs "q", .str (bs "ping")), (bs "t", .str [97, 97]), (bs "y", .str (bs "q"))] = some yv ∧
      strDecode yv = .ok yb ∧
      ((yb = bs "q" ∧ (Lib.Payload.Ping ⟨⟨bs "abcdefghij0123456789"⟩⟩).getType = .Query) ∨
       (yb = bs "r" ∧ (Lib.Payload.Ping ⟨⟨bs "abcdefghij0123456789"⟩⟩).getType = .Response) ∨
       (yb = bs "e" ∧ (Lib.Payload.Ping ⟨⟨bs "abcdefghij0123456789"⟩⟩).getType = .Error)) :=
  lib_payload_class_matches_y
    [(bs "a", .dict [(bs "id", .str (bs "abcdefghij0123456789"))]),
     (bs "q", .str (bs "ping")), (bs "t", .str [97, 97]), (bs "y", .str (bs "q"))]
    ⟨24929, .Ping ⟨⟨bs "abcdefghij0123456789"⟩⟩⟩ (by rfl)

/-- C3: each concrete scenario of the spec decodes to the stated structure
and re-encodes to the input byte-for-byte; in particular the Ping query with
sender id `abcdefghij0123456789` and transaction id 24929 encodes (from both
implementations) exactly to
`d1:ad2:id20:abcdefghij0123456789e1:q4:ping1:t2:aa1:y1:qe`. -/
theorem scenario_byte_exact_roundtrips :
    (Raw.Message.fromBytes (bs "d1:ad2:id20:abcdefghij0123456789e1:q4:ping1:t2:aa1:y1:qe") =
        .ok ⟨24929, .Query, some .Ping,
          some ⟨⟨bs "abcdefghij0123456789"⟩, none, none, none, none, none⟩, none, none⟩ ∧
      Raw.Message.toBytes ⟨24929, .Query, some .Ping,
          some ⟨⟨bs "abcdefghij0123456789"⟩, none, none, none, none, none⟩, none, none⟩ =
        bs "d1:ad2:id20:abcdefghij0123456789e1:q4:ping1:t2:aa1:y1:qe") ∧
    (Lib.Message.toBytes (Lib.Message.ping 24929 (bs "abcdefghij0123456789")) =
        bs "d1:ad2:id20:abcdefghij0123456789e1:q4:ping1:t2:aa1:y1:qe" ∧
      Lib.Message.fromBytes (bs "d1:ad2:id20:abcdefghij0123456789e1:q4:ping1:t2:aa1:y1:qe") =
        .ok (Lib.Message.ping 24929 (bs "abcdefghij0123456789"))) ∧
    (Raw.Message.fromBytes
        (bs "d1:ad2:id20:abcdefghij01234567896:target20:mnopqrstuvwxyz123456e1:q9:find_node1:t2:aa1:y1:qe") =
        .ok ⟨24929, .Query, some .FindNone,
          some ⟨⟨bs "abcdefghij0123456789"⟩, some ⟨bs "mnopqrstuvwxyz123456"⟩,
            none, none, none, none⟩, none, none⟩ ∧
      Raw.Message.toBytes ⟨24929, .Query, some .FindNone,
          some ⟨⟨bs "abcdefghij0123456789"⟩, some ⟨bs "mnopqrstuvwxyz123456"⟩,
            none, none, none, none⟩, none, none⟩ =
        bs "d1:ad2:id20:abcdefghij01234567896:target20:mnopqrstuvwxyz123456e1:q9:find_node1:t2:aa1:y1:qe") ∧
    (Raw.Message.fromBytes (bs "d1:eli201e23:A Generic Error Ocurrede1:t2:aa1:y1:ee") =
        .ok ⟨24929, .Error, none, none, none, some ⟨201, bs "A Generic Error Ocurred"⟩⟩ ∧
      Raw.Message.toBytes ⟨24929, .Error, none, none, none,
          some ⟨201, bs "A Generic Error Ocurred"⟩⟩ =
        bs "d1:eli201e23:A Generic Error Ocurrede1:t2:aa1:y1:ee") ∧
    (Raw.Message.fromBytes
        (bs "d1:rd2:id20:abcdefghij01234567895:token8:aoeusnth6:valuesl6:ABCDaa6:EFGHaaee1:t2:aa1:y1:re") =
        .ok ⟨24929, .Response, none, none,
          some ⟨⟨bs "abcdefghij0123456789"⟩, none,
            some [⟨[65, 66, 67, 68], 24929⟩, ⟨[69, 70, 71, 72], 24929⟩],
            some (bs "aoeusnth")⟩, none⟩ ∧
      Raw.Message.toBytes ⟨24929, .Response, none, none,
          some ⟨⟨bs "abcdefghij0123456789"⟩, none,
            some [⟨[65, 66, 67, 68], 24929⟩, ⟨[69, 70, 71, 72], 24929⟩],
            some (bs "aoeusnth")⟩, none⟩ =
        bs "d1:rd2:id20:abcdefghij01234567895:token8:aoeusnth6:valuesl6:ABCDaa6:EFGHaaee1:t2:aa1:y1:re") :=
  ⟨⟨rfl, rfl⟩, ⟨rfl, rfl⟩, ⟨rfl, rfl⟩, ⟨rfl, rfl⟩, ⟨rfl, rfl⟩⟩
theorem natTextF_spec : ∀ fuel n, n < fuel →
    natTextF fuel n ≠ [] ∧ (natTextF fuel n).all isDigit = true ∧
    ∀ a, List.foldl (fun x c => x * 10 + (c - 48)) a (natTextF fuel n) =
      a * 10 ^ (natTextF fuel n).length + n := by
  intro fuel
  induction fuel with
  | zero => intro n h; omega
  | succ f ih =>
    intro n hlt
    by_cases h10 : n < 10
    · refine ⟨by simp [natTextF, h10], ?_, ?_⟩
      · simp only [natTextF, if_pos h10, List.all_cons, List.all_nil, Bool.and_true, isDigit]
        simp
        omega
      · intro a
        simp only [natTextF, if_pos h10, List.foldl_cons, List.foldl_nil, List.length_cons,
          List.length_nil, pow_one, pow_zero]
        omega
    · have hdiv : n / 10 < f := by omega
      obtain ⟨hne, hdig, hval⟩ := ih (n / 10) hdiv
      have heq : natTextF (f + 1) n = natTextF f (n / 10) ++ [n % 10 + 48] := by
        simp [natTextF, h10]
      refine ⟨by simp [heq], ?_, ?_⟩
      · rw [heq, List.all_append, hdig]
        simp only [List.all_cons, List.all_nil, Bool.and_true, Bool.true_and, isDigit]
        simp
        omega
      · intro a
        rw [heq, List.foldl_append, hval a]
        simp only [List.foldl_cons, List.foldl_nil, List.length_append, List.length_cons,
          List.length_nil]
        rw [pow_succ]
        have hmul : a * (10 ^ (natTextF f (n / 10)).length * 10) =
            a * 10 ^ (natTextF f (n / 10)).length * 10 := by ring
        omega

theorem natText_spec (n : Nat) :
    natText n ≠ [] ∧ (natText n).all isDigit = true ∧ digitsVal (natText n) = n := by
  obtain ⟨h1, h2, h3⟩ := natTextF_spec (n + 1) n (by omega)
  exact ⟨h1, h2, by simpa [digitsVal] using h3 0⟩

theorem parseUText_natText (n : Nat) : parseUText (natText n) = some n := by
  obtain ⟨hne, hdig, hval⟩ := natText_spec n
  cases hcons : natText n with
  | nil => exact absurd hcons hne
  | cons c cs =>
    rw [hcons] at hdig hval
    have hc : isDigit c = true := by
      have := List.all_eq_true.mp hdig c (List.mem_cons_self c cs)
      exact this
    have hc48 : 48 ≤ c ∧ c ≤ 57 := by simpa [isDigit] using hc
    have hc43 : ¬(c = 43) := by omega
    simp only [parseUText, hc43, if_false, hdig, if_true, digitsVal] at *
    simp [hval]

theorem parseU16_natText (n : Nat) (h : n < 65536) : parseU16 (natText n) = some n := by
  simp [parseU16, parseUText_natText, h]

theorem parseIText_intText (i : Int) : parseIText (intText i) = some i := by
  by_cases hi : i < 0
  · obtain ⟨hne, hdig, hval⟩ := natText_spec i.natAbs
    have hdv : digitsVal (natText i.natAbs) = i.natAbs := by
      simpa [digitsVal] using hval
    simp only [intText, if_pos hi, parseIText, if_pos rfl]
    have hcond : (decide (natText i.natAbs ≠ []) && (natText i.natAbs).all isDigit) = true := by
      simp [hne, hdig]
    rw [if_pos hcond, hdv]
    have habs : ((i.natAbs : Int)) = -i := by omega
    rw [habs, neg_neg]
    simp
  · obtain ⟨hne, hdig, hval⟩ := natText_spec i.natAbs
    simp only [intText, if_neg hi]
    cases hcons : natText i.natAbs with
    | nil => exact absurd hcons hne
    | cons c cs =>
      rw [hcons] at hdig
      have hc : isDigit c = true := List.all_eq_true.mp hdig c (List.mem_cons_self c cs)
      have hc48 : 48 ≤ c ∧ c ≤ 57 := by simpa [isDigit] using hc
      have hc45 : ¬(c = 45) := by omega
      simp only [parseIText, hc45, if_false]
      rw [← hcons, parseUText_natText]
      simp
      omega

theorem parseI64_intText (i : Int) (hlo : -(2 ^ 63) ≤ i) (hhi : i < 2 ^ 63) :
    parseI64 (intText i) = some i := by
  simp only [parseI64, parseIText_intText]
  rw [if_pos (by constructor <;> omega)]

theorem exists_list4 (l : List Nat) (h : l.length = 4) :
    ∃ a b c d, l = [a, b, c, d] := by
  match l, h with
  | [a, b, c, d], _ => exact ⟨a, b, c, d, rfl⟩

theorem fromBe16_be16 (n : Nat) : fromBe16 (n / 256) (n % 256) = n := by
  simp [fromBe16]
  omega
theorem rawHash_decode_encode (h : Raw.Hash) (hv : h.valid = true) :
    Raw.Hash.decode h.encodeB = .ok h := by
  simp [Raw.Hash.valid] at hv
  simp [Raw.Hash.decode, Raw.Hash.encodeB, tryIntoBytes, hv.1]

theorem libHash_decode_encode (h : Lib.Hash) (hv : h.valid = true) :
    Lib.Hash.decode h.encodeB = .ok h := by
  simp [Lib.Hash.valid] at hv
  simp [Lib.Hash.decode, Lib.Hash.encodeB, tryIntoBytes, hv.1]

theorem rawSock_from_to (a : Raw.SocketAddrV4) (hv : a.valid = true) :
    Raw.SocketAddrV4.fromBytes a.toBytes = .ok a := by
  simp [Raw.SocketAddrV4.valid] at hv
  obtain ⟨b0, b1, b2, b3, hip⟩ := exists_list4 a.ip hv.1.1
  rcases a with ⟨ip, port⟩
  simp only at hip
  subst hip
  simp [Raw.SocketAddrV4.toBytes, Raw.SocketAddrV4.fromBytes, be16, fromBe16]
  omega

theorem libSock_from_to (a : Raw.SocketAddrV4) (hv : a.valid = true) :
    Lib.sockFromBytes (Lib.sockIntoBytes a) = .ok a := by
  simp [Raw.SocketAddrV4.valid] at hv
  obtain ⟨b0, b1, b2, b3, hip⟩ := exists_list4 a.ip hv.1.1
  rcases a with ⟨ip, port⟩
  simp only at hip
  subst hip
  simp [Lib.sockIntoBytes, Lib.sockFromBytes, be16, fromBe16]
  omega

theorem rawNode_from_to (n : Raw.Node) (hv : n.valid = true) :
    Raw.Node.fromChunk n.toChunk = n := by
  obtain ⟨hid, haddrv⟩ : n.id.valid = true ∧ n.addr.valid = true := by
    simpa [Raw.Node.valid] using hv
  have h20 : n.id.bytes.length = 20 := by
    simp [Raw.Hash.valid] at hid
    exact hid.1
  have haddr := rawSock_from_to n.addr haddrv
  rcases n with ⟨⟨b⟩, addr⟩
  simp only at h20 haddr
  simp only [Raw.Node.toChunk, Raw.Node.fromChunk]
  rw [← h20, List.take_left, List.drop_left, haddr]

theorem libNode_from_to (n : Lib.Node) (hv : n.valid = true) :
    Lib.Node.fromChunk n.intoBytes = n := by
  obtain ⟨hid, haddrv⟩ : n.id.valid = true ∧ n.addr.valid = true := by
    simpa [Lib.Node.valid] using hv
  have h20 : n.id.bytes.length = 20 := by
    simp [Lib.Hash.valid] at hid
    exact hid.1
  have haddr := libSock_from_to n.addr haddrv
  rcases n with ⟨⟨b⟩, addr⟩
  simp only at h20 haddr
  simp only [Lib.Node.intoBytes, Lib.Node.fromChunk]
  rw [← h20, List.take_left, List.drop_left, haddr]

theorem rawNode_toChunk_length (n : Raw.Node) (hv : n.valid = true) :
    n.toChunk.length = 26 := by
  simp [Raw.Node.valid, Raw.Hash.valid, Raw.SocketAddrV4.valid] at hv
  simp [Raw.Node.toChunk, Raw.SocketAddrV4.toBytes, be16, hv.1.1, hv.2.1.1]

theorem libNode_intoBytes_length (n : Lib.Node) (hv : n.valid = true) :
    n.intoBytes.length = 26 := by
  simp [Lib.Node.valid, Lib.Hash.valid, Raw.SocketAddrV4.valid] at hv
  simp [Lib.Node.intoBytes, Lib.sockIntoBytes, be16, hv.1.1, hv.2.1.1]

theorem chunks26F_eq_chunks26 :
    ∀ (n : Nat) (l : List Nat), l.length ≤ n → ∀ f, l.length < f →
      Raw.chunks26F f l = Raw.chunks26 l := by
  intro n
  induction n with
  | zero =>
    intro l hn f hf
    have : l = [] := by
      cases l with
      | nil => rfl
      | cons a as => simp at hn
    subst this
    simp [chunks26F_nil, Raw.chunks26]
  | succ n ih =>
    intro l hn f hf
    by_cases hnil : l = []
    · subst hnil
      simp [chunks26F_nil, Raw.chunks26]
    · have hpos : 0 < l.length := List.length_pos.mpr hnil
      cases f with
      | zero => omega
      | succ f' =>
        have hdl : (l.drop 26).length = l.length - 26 := List.length_drop 26 l
        have h1 : Raw.chunks26F f' (l.drop 26) = Raw.chunks26 (l.drop 26) :=
          ih (l.drop 26) (by omega) f' (by omega)
        have h2 : Raw.chunks26F l.length (l.drop 26) = Raw.chunks26 (l.drop 26) :=
          ih (l.drop 26) (by omega) l.length (by omega)
        have unfoldL : Raw.chunks26F (f' + 1) l = l.take 26 :: Raw.chunks26F f' (l.drop 26) := by
          simp [Raw.chunks26F, hnil]
        have unfoldR : Raw.chunks26 l = l.take 26 :: Raw.chunks26F l.length (l.drop 26) := by
          show Raw.chunks26F (l.length + 1) l = _
          simp [Raw.chunks26F, hnil]
        rw [unfoldL, unfoldR, h1, h2]

theorem chunks26_block (b rest : List Nat) (hb : b.length = 26) :
    Raw.chunks26 (b ++ rest) = b :: Raw.chunks26 rest := by
  have hnil : b ++ rest ≠ [] := by
    intro h
    have := congrArg List.length h
    simp [hb] at this
  have htake : (b ++ rest).take 26 = b := by
    rw [← hb]; exact List.take_left b rest
  have hdrop : (b ++ rest).drop 26 = rest := by
    rw [← hb]; exact List.drop_left b rest
  show Raw.chunks26F ((b ++ rest).length + 1) (b ++ rest) = b :: Raw.chunks26 rest
  cases h : (b ++ rest).length + 1 with
  | zero => omega
  | succ f' =>
    simp only [Raw.chunks26F, if_neg hnil, htake, hdrop]
    have hlen : (b ++ rest).length = b.length + rest.length := List.length_append b rest
    rw [chunks26F_eq_chunks26 rest.length rest (le_refl _) f' (by omega)]

theorem raw_nodesOfChunks_encode (ns : List Raw.Node) (hv : ns.all Raw.Node.valid = true) :
    Raw.nodesOfChunks (Raw.chunks26 (Raw.nodeListBytes ns)) = .ok ns := by
  induction ns with
  | nil => simp [Raw.nodeListBytes, Raw.chunks26, Raw.chunks26F, Raw.nodesOfChunks]
  | cons n ns ih =>
    simp only [List.all_cons, Bool.and_eq_true] at hv
    have hlen : n.toChunk.length = 26 := rawNode_toChunk_length n hv.1
    have hflat : Raw.nodeListBytes (n :: ns) = n.toChunk ++ Raw.nodeListBytes ns := by
      simp [Raw.nodeListBytes]
    rw [hflat, chunks26_block _ _ hlen]
    simp only [Raw.nodesOfChunks, hlen, ih hv.2, rawNode_from_to n hv.1]
    simp

theorem raw_nodeList_decode_encode (ns : List Raw.Node) (hv : ns.all Raw.Node.valid = true) :
    Raw.nodeListDecode (.str (Raw.nodeListBytes ns)) = .ok ns := by
  simp only [Raw.nodeListDecode, tryIntoBytes]
  exact raw_nodesOfChunks_encode ns hv

theorem lib_nodesFromChunks_encode (ns : List Lib.Node) (hv : ns.all Lib.Node.valid = true) :
    Lib.nodesFromChunks (Raw.chunks26 (Lib.nodesIntoBytes ns)) = .ok ns := by
  induction ns with
  | nil => simp [Lib.nodesIntoBytes, Raw.chunks26, Raw.chunks26F, Lib.nodesFromChunks]
  | cons n ns ih =>
    simp only [List.all_cons, Bool.and_eq_true] at hv
    have hlen : n.intoBytes.length = 26 := libNode_intoBytes_length n hv.1
    have hflat : Lib.nodesIntoBytes (n :: ns) = n.intoBytes ++ Lib.nodesIntoBytes ns := by
      simp [Lib.nodesIntoBytes]
    rw [hflat, chunks26_block _ _ hlen]
    simp only [Lib.nodesFromChunks, hlen, ih hv.2, libNode_from_to n hv.1]
    simp

theorem lib_nodesFromBytes_encode (ns : List Lib.Node) (hv : ns.all Lib.Node.valid = true) :
    Lib.nodesFromBytes (Lib.nodesIntoBytes ns) = .ok ns := by
  simp only [Lib.nodesFromBytes]
  exact lib_nodesFromChunks_encode ns hv

theorem raw_addrList_decode_encode (vs : List Raw.SocketAddrV4)
    (hv : vs.all Raw.SocketAddrV4.valid = true) :
    Raw.addrListDecode (.list (vs.map (fun a => .str a.toBytes))) = .ok vs := by
  induction vs with
  | nil => simp [Raw.addrListDecode, tryIntoList]
  | cons a as ih =>
    simp only [List.all_cons, Bool.and_eq_true] at hv
    have hdec : Raw.SocketAddrV4.decode (.str a.toBytes) = .ok a := by
      simp [Raw.SocketAddrV4.decode, tryIntoBytes, rawSock_from_to a hv.1]
    have ih' := ih hv.2
    simp only [Raw.addrListDecode, tryIntoList, List.map_cons, List.foldr_cons, hdec] at ih' ⊢
    rw [ih']

theorem lib_vecSock_decode_encode (vs : List Raw.SocketAddrV4)
    (hv : vs.all Raw.SocketAddrV4.valid = true) :
    Lib.vecSockDecode (.list (vs.map (fun a => .str (Lib.sockIntoBytes a)))) = .ok vs := by
  induction vs with
  | nil => simp [Lib.vecSockDecode, tryIntoList]
  | cons a as ih =>
    simp only [List.all_cons, Bool.and_eq_true] at hv
    have hdec := libSock_from_to a hv.1
    have ih' := ih hv.2
    simp only [Lib.vecSockDecode, tryIntoList, List.map_cons, List.foldr_cons, tryIntoBytes,
      hdec] at ih' ⊢
    rw [ih']
theorem rawHash_decode_str (h : Raw.Hash) (hv : h.valid = true) :
    Raw.Hash.decode (.str h.bytes) = .ok h := rawHash_decode_encode h hv

theorem libHash_decode_str (h : Lib.Hash) (hv : h.valid = true) :
    Lib.Hash.decode (.str h.bytes) = .ok h := libHash_decode_encode h hv

theorem rawError_decode_encode (e : Raw.Error) (hv : e.valid = true) :
    Raw.Error.decode e.encodeB = .ok e := by
  simp only [Raw.Error.valid, Bool.and_eq_true, decide_eq_true_eq] at hv
  obtain ⟨⟨h1, h2⟩, h3⟩ := hv
  simp [Raw.Error.decode, Raw.Error.encodeB, tryIntoList, i64Decode, tryIntoInteger,
    parseI64_intText e.code h1 h2, strDecode, tryIntoBytes, h3]

theorem libError_decode_encode (e : Lib.Error) (hv : e.valid = true) :
    Lib.Error.decode e.encodeB = .ok e := by
  simp only [Lib.Error.valid, Bool.and_eq_true, decide_eq_true_eq] at hv
  obtain ⟨⟨h1, h2⟩, h3⟩ := hv
  simp [Lib.Error.decode, Lib.Error.encodeB, tryIntoList, i64Decode, tryIntoInteger,
    parseI64_intText e.code h1 h2, strDecode, tryIntoBytes, h3]

theorem rawQA_decode_encode (q : Raw.QueryArgs) (hv : q.valid = true) :
    Raw.QueryArgs.decode q.encodeB = .ok q := by
  obtain ⟨sender, target, ih, ipt, prt, tok⟩ := q
  rcases target with _ | t <;> rcases ih with _ | i <;> rcases ipt with _ | b <;>
    rcases prt with _ | p <;> rcases tok with _ | tk <;>
    simp_all [Raw.QueryArgs.valid, Raw.QueryArgs.decode, Raw.QueryArgs.encodeB, tryIntoDict,
      walk, Raw.QueryArgs.step, withCtx, tryIntoInteger, tryIntoBytes, rawHash_decode_encode,
      parseU16_natText, bs, Option.all] <;>
    try (cases b <;> decide)

theorem rawResp_decode_encode (r : Raw.Response) (hv : r.valid = true) :
    Raw.Response.decode r.encodeB = .ok r := by
  obtain ⟨sender, nodes, values, tok⟩ := r
  rcases nodes with _ | ns <;> rcases values with _ | vs <;> rcases tok with _ | tk <;>
    simp_all [Raw.Response.valid, Raw.Response.decode, Raw.Response.encodeB, tryIntoDict,
      walk, Raw.Response.step, withCtx, tryIntoBytes, rawHash_decode_encode,
      raw_nodeList_decode_encode, raw_addrList_decode_encode, bs, Option.all]

theorem rawMT_decode_encode (mt : Raw.MessageType) :
    Raw.MessageType.decode mt.encodeB = .ok mt := by cases mt <;> rfl

theorem rawQT_decode_encode (qt : Raw.QueryType) :
    Raw.QueryType.decode qt.encodeB = .ok qt := by cases qt <;> rfl

theorem rawMsg_decode_encode (m : Raw.Message) (hv : m.valid = true) :
    Raw.Message.decode m.encodeB = .ok m := by
  obtain ⟨tid, mt, qt, qa, resp, err⟩ := m
  rcases qt with _ | qt <;> rcases qa with _ | qa <;> rcases resp with _ | resp <;>
    rcases err with _ | err <;>
    simp_all [Raw.Message.valid, Raw.Message.decode, Raw.Message.encodeB, tryIntoDict, walk,
      Raw.Message.step, withCtx, tryIntoBytes, be16, fromBe16, Nat.div_add_mod,
      rawMT_decode_encode, rawQT_decode_encode, rawQA_decode_encode, rawResp_decode_encode,
      rawError_decode_encode, bs, Option.all] <;>
    omega

theorem A_decode_ping (p : Lib.Ping) (hv : p.id.valid = true) :
    Lib.A.decode p.encodeB = .ok ⟨p.id, none, none, none, none, none⟩ := by
  simp [Lib.A.decode, Lib.Ping.encodeB, tryIntoDict, walk, Lib.A.step, withCtx,
    libHash_decode_encode p.id hv, bs]

theorem A_decode_findnode (f : Lib.FindNode) (hid : f.id.valid = true)
    (htg : f.target.valid = true) :
    Lib.A.decode f.encodeB = .ok ⟨f.id, some f.target, none, none, none, none⟩ := by
  simp [Lib.A.decode, Lib.FindNode.encodeB, tryIntoDict, walk, Lib.A.step, withCtx,
    libHash_decode_encode f.id hid, libHash_decode_encode f.target htg, bs]

theorem A_decode_getpeers (g : Lib.GetPeers) (hid : g.id.valid = true)
    (hih : g.info_hash.valid = true) :
    Lib.A.decode g.encodeB = .ok ⟨g.id, none, some g.info_hash, none, none, none⟩ := by
  simp [Lib.A.decode, Lib.GetPeers.encodeB, tryIntoDict, walk, Lib.A.step, withCtx,
    libHash_decode_encode g.id hid, libHash_decode_encode g.info_hash hih, bs]

theorem A_decode_announce (a : Lib.AnnouncePeer) (hid : a.id.valid = true)
    (hih : a.info_hash.valid = true) (hp : a.port < 65536) :
    Lib.A.decode a.encodeB =
      .ok ⟨a.id, none, some a.info_hash, a.implied_port, some a.port, some a.token⟩ := by
  obtain ⟨id, ipt, ih, prt, tok⟩ := a
  simp only at hid hih hp
  rcases ipt with _ | b
  · simp [Lib.A.decode, Lib.AnnouncePeer.encodeB, tryIntoDict, walk, Lib.A.step, withCtx,
      libHash_decode_encode id hid, libHash_decode_encode ih hih, tryIntoInteger,
      tryIntoBytes, parseU16_natText _ hp, bs]
  · cases b <;>
      (simp [Lib.A.decode, Lib.AnnouncePeer.encodeB, tryIntoDict, walk, Lib.A.step, withCtx,
        libHash_decode_encode id hid, libHash_decode_encode ih hih, tryIntoInteger,
        tryIntoBytes, parseU16_natText _ hp, bs]) <;>
      simp [parseU8, parseUText, natText, natTextF, digitsVal, isDigit]

theorem libResp_decode_encode (r : Lib.Response) (hv : r.valid = true) :
    Lib.Response.decode r.encodeB = .ok r := by
  obtain ⟨id, nodes, values, tok⟩ := r
  rcases nodes with _ | ns <;> rcases values with _ | vs <;> rcases tok with _ | tk <;>
    simp_all [Lib.Response.valid, Lib.Response.decode, Lib.Response.encodeB, tryIntoDict,
      walk, Lib.Response.step, withCtx, tryIntoBytes, libHash_decode_encode,
      lib_nodesFromBytes_encode, lib_vecSock_decode_encode, bs, Option.all]

theorem libMsg_decode_encode (m : Lib.Message) (hv : m.valid = true) :
    Lib.Message.decode m.encodeB = .ok m := by
  obtain ⟨tid, payload⟩ := m
  simp only [Lib.Message.valid, Lib.Payload.valid, Bool.and_eq_true, decide_eq_true_eq] at hv
  have htid : fromBe16 (tid / 256) (tid % 256) = tid := by
    simp [fromBe16]
    omega
  cases payload with
  | Ping p =>
    have hA := A_decode_ping p hv.2
    have hstep : Lib.Message.step {} (bs "a", Lib.Ping.encodeB p) =
        .ok { a := some ⟨p.id, none, none, none, none, none⟩ } := by
      simp [Lib.Message.step, bs, hA, withCtx]
    have hdec : Lib.Message.decode (Lib.Message.encodeB ⟨tid, .Ping p⟩) =
        .ok ⟨fromBe16 (tid / 256) (tid % 256),
          .Ping (Lib.Ping.fromA ⟨p.id, none, none, none, none, none⟩)⟩ := by
      show Lib.Message.decode (.dict [(bs "a", Lib.Ping.encodeB p), (bs "q", .str (bs "ping")),
        (bs "t", .str (be16 tid)), (bs "y", .str (bs "q"))]) = _
      simp only [Lib.Message.decode, tryIntoDict, walk, hstep]
      rfl
    rw [hdec, htid]
    rfl
  | FindNode f =>
    obtain ⟨htl, hid, htg⟩ : tid < 65536 ∧ f.id.valid = true ∧ f.target.valid = true := by
      obtain ⟨h1, h2⟩ := hv
      exact ⟨h1, (Bool.and_eq_true _ _).mp h2⟩
    have hA := A_decode_findnode f hid htg
    have hstep : Lib.Message.step {} (bs "a", Lib.FindNode.encodeB f) =
        .ok { a := some ⟨f.id, some f.target, none, none, none, none⟩ } := by
      simp [Lib.Message.step, bs, hA, withCtx]
    have hdec : Lib.Message.decode (Lib.Message.encodeB ⟨tid, .FindNode f⟩) =
        .ok ⟨fromBe16 (tid / 256) (tid % 256), .FindNode ⟨f.id, f.target⟩⟩ := by
      show Lib.Message.decode (.dict [(bs "a", Lib.FindNode.encodeB f),
        (bs "q", .str (bs "find_node")), (bs "t", .str (be16 tid)),
        (bs "y", .str (bs "q"))]) = _
      simp only [Lib.Message.decode, tryIntoDict, walk, hstep]
      rfl
    rw [hdec, htid]
  | GetPeers g =>
    obtain ⟨htl, hid, hih⟩ : tid < 65536 ∧ g.id.valid = true ∧ g.info_hash.valid = true := by
      obtain ⟨h1, h2⟩ := hv
      exact ⟨h1, (Bool.and_eq_true _ _).mp h2⟩
    have hA := A_decode_getpeers g hid hih
    have hstep : Lib.Message.step {} (bs "a", Lib.GetPeers.encodeB g) =
        .ok { a := some ⟨g.id, none, some g.info_hash, none, none, none⟩ } := by
      simp [Lib.Message.step, bs, hA, withCtx]
    have hdec : Lib.Message.decode (Lib.Message.encodeB ⟨tid, .GetPeers g⟩) =
        .ok ⟨fromBe16 (tid / 256) (tid % 256), .GetPeers ⟨g.id, g.info_hash⟩⟩ := by
      show Lib.Message.decode (.dict [(bs "a", Lib.GetPeers.encodeB g),
        (bs "q", .str (bs "get_peers")), (bs "t", .str (be16 tid)),
        (bs "y", .str (bs "q"))]) = _
      simp only [Lib.Message.decode, tryIntoDict, walk, hstep]
      rfl
    rw [hdec, htid]
  | AnnouncePeer a =>
    obtain ⟨htl, hrest⟩ := hv
    obtain ⟨⟨⟨hid, hih⟩, hprt⟩, htok⟩ :
        ((a.id.valid = true ∧ a.info_hash.valid = true) ∧ a.port < 65536) ∧
          a.token.all (· < 256) = true := by
      simpa [Bool.and_eq_true, decide_eq_true_eq] using hrest
    have hA := A_decode_announce a hid hih hprt
    have hstep : Lib.Message.step {} (bs "a", Lib.AnnouncePeer.encodeB a) =
        .ok { a := some ⟨a.id, none, some a.info_hash, a.implied_port,
          some a.port, some a.token⟩ } := by
      simp [Lib.Message.step, bs, hA, withCtx]
    have hdec : Lib.Message.decode (Lib.Message.encodeB ⟨tid, .AnnouncePeer a⟩) =
        .ok ⟨fromBe16 (tid / 256) (tid % 256),
          .AnnouncePeer ⟨a.id, a.implied_port, a.info_hash, a.port, a.token⟩⟩ := by
      show Lib.Message.decode (.dict [(bs "a", Lib.AnnouncePeer.encodeB a),
        (bs "q", .str (bs "announce_peer")), (bs "t", .str (be16 tid)),
        (bs "y", .str (bs "q"))]) = _
      simp only [Lib.Message.decode, tryIntoDict, walk, hstep]
      rfl
    rw [hdec, htid]
  | Response r =>
    have hR := libResp_decode_encode r hv.2
    have hstep : Lib.Message.step {} (bs "r", Lib.Response.encodeB r) =
        .ok { r := some r } := by
      simp [Lib.Message.step, bs, hR, withCtx]
    have hdec : Lib.Message.decode (Lib.Message.encodeB ⟨tid, .Response r⟩) =
        .ok ⟨fromBe16 (tid / 256) (tid % 256), .Response r⟩ := by
      show Lib.Message.decode (.dict [(bs "r", Lib.Response.encodeB r),
        (bs "t", .str (be16 tid)), (bs "y", .str (bs "r"))]) = _
      simp only [Lib.Message.decode, tryIntoDict, walk, hstep]
      rfl
    rw [hdec, htid]
  | Error e =>
    have hE := libError_decode_encode e hv.2
    have hstep : Lib.Message.step {} (bs "e", Lib.Error.encodeB e) =
        .ok { e := some e } := by
      simp [Lib.Message.step, bs, hE, withCtx]
    have hdec : Lib.Message.decode (Lib.Message.encodeB ⟨tid, .Error e⟩) =
        .ok ⟨fromBe16 (tid / 256) (tid % 256), .Error e⟩ := by
      show Lib.Message.decode (.dict [(bs "e", Lib.Error.encodeB e),
        (bs "t", .str (be16 tid)), (bs "y", .str (bs "e"))]) = _
      simp only [Lib.Message.decode, tryIntoDict, walk, hstep]
      rfl
    rw [hdec, htid]
theorem natText_cons_digit (n : Nat) :
    ∃ c cs, natText n = c :: cs ∧ isDigit c = true ∧ cs.all isDigit = true := by
  obtain ⟨hne, hdig, hval⟩ := natText_spec n
  cases hcons : natText n with
  | nil => exact absurd hcons hne
  | cons c cs =>
    rw [hcons] at hdig
    simp only [List.all_cons, Bool.and_eq_true] at hdig
    exact ⟨c, cs, rfl, hdig.1, hdig.2⟩

theorem natTextF_head48 :
    ∀ fuel n, n < fuel → (natTextF fuel n).head? = some 48 → natTextF fuel n = [48] := by
  intro fuel
  induction fuel with
  | zero => intro n h; omega
  | succ f ih =>
    intro n hlt hhead
    by_cases h10 : n < 10
    · simp only [natTextF, if_pos h10] at hhead ⊢
      simp only [List.head?_cons, Option.some.injEq] at hhead
      have : n = 0 := by omega
      subst this
      rfl
    · exfalso
      have hdiv : n / 10 < f := by omega
      obtain ⟨hne, hdig, hval⟩ := natTextF_spec f (n / 10) hdiv
      simp only [natTextF, if_neg h10] at hhead
      rw [List.head?_append_of_ne_nil _ hne] at hhead
      have h1 := ih (n / 10) hdiv hhead
      have h2 := hval 0
      rw [h1] at h2
      simp at h2
      omega

theorem natText_head48 (n : Nat) : (natText n).head? = some 48 → natText n = [48] :=
  natTextF_head48 (n + 1) n (by omega)

theorem natText_pos_shape (n : Nat) (hpos : 0 < n) :
    ∃ c cs, natText n = c :: cs ∧ 49 ≤ c ∧ c ≤ 57 ∧ cs.all isDigit = true := by
  obtain ⟨c, cs, hcons, hc, hcs⟩ := natText_cons_digit n
  have hc' : 48 ≤ c ∧ c ≤ 57 := by simpa [isDigit] using hc
  refine ⟨c, cs, hcons, ?_, hc'.2, hcs⟩
  by_contra hlt
  have hc48 : c = 48 := by omega
  subst hc48
  have h48 : (natText n).head? = some 48 := by rw [hcons]; rfl
  have heq := natText_head48 n h48
  obtain ⟨-, -, hval⟩ := natText_spec n
  rw [heq] at hval
  simp [digitsVal] at hval
  omega

theorem isIntTok_natText (n : Nat) : isIntTok (natText n) = true := by
  by_cases hpos : 0 < n
  · obtain ⟨c, cs, hcons, h49, h57, hcs⟩ := natText_pos_shape n hpos
    rw [hcons]
    simp only [isIntTok]
    rw [if_neg (by omega), if_neg (by omega)]
    simp [h49, h57, hcs]
  · have : n = 0 := by omega
    subst this
    rfl

theorem isIntTok_intText (i : Int) : isIntTok (intText i) = true := by
  by_cases hi : i < 0
  · have hpos : 0 < i.natAbs := by omega
    obtain ⟨c, cs, hcons, h49, h57, hcs⟩ := natText_pos_shape i.natAbs hpos
    simp only [intText, if_pos hi, hcons, isIntTok, if_pos rfl]
    simp [h49, h57, hcs]
  · simp only [intText, if_neg hi]
    exact isIntTok_natText i.natAbs

theorem takeWhile_all_append (p : Nat → Bool) :
    ∀ (l1 : List Nat) (c : Nat) (l2 : List Nat), l1.all p = true → p c = false →
      ((l1 ++ c :: l2).takeWhile p = l1 ∧ (l1 ++ c :: l2).drop l1.length = c :: l2) := by
  intro l1
  induction l1 with
  | nil =>
    intro c l2 _ hc
    simp [List.takeWhile, hc]
  | cons a as ih =>
    intro c l2 hall hc
    simp only [List.all_cons, Bool.and_eq_true] at hall
    obtain ⟨ha, has⟩ := hall
    have := ih c l2 has hc
    simp [List.takeWhile, ha, this.1, this.2]

theorem parseStrTok_ser (s rest : List Nat) :
    parseStrTok (natText s.length ++ 58 :: (s ++ rest)) = some (s, rest) := by
  obtain ⟨hne, hdig, -⟩ := natText_spec s.length
  obtain ⟨htake, hdrop⟩ :=
    takeWhile_all_append isDigit (natText s.length) 58 (s ++ rest) hdig (by decide)
  have hcanon : (decide ((natText s.length).head? = some 48) &&
      decide (natText s.length ≠ [48])) = false := by
    by_cases h48 : (natText s.length).head? = some 48
    · simp [natText_head48 s.length h48]
    · simp [h48]
  obtain ⟨-, -, hdv⟩ := natText_spec s.length
  simp only [parseStrTok, htake, hdrop, hcanon, Bool.false_eq_true, if_false, hdv]
  rw [if_neg (by simpa using hne)]
  rw [if_pos (by simp)]
  simp [List.take_left', List.drop_left']

theorem splitAtE_no101 :
    ∀ (t : List Nat), (∀ c ∈ t, ¬c = 101) → ∀ rest, splitAtE (t ++ 101 :: rest) = some (t, rest) := by
  intro t
  induction t with
  | nil => intro _ rest; simp [splitAtE]
  | cons a as ih =>
    intro h rest
    have ha : ¬a = 101 := h a (List.mem_cons_self a as)
    have has : ∀ c ∈ as, ¬c = 101 := fun c hc => h c (List.mem_cons_of_mem a hc)
    simp only [List.cons_append, splitAtE, if_neg ha]
    rw [show as.append (101 :: rest) = as ++ 101 :: rest from rfl, ih has rest]

theorem isIntTok_no101 (t : List Nat) (h : isIntTok t = true) : ∀ c ∈ t, ¬c = 101 := by
  cases t with
  | nil => simp
  | cons a as =>
    simp only [isIntTok] at h
    by_cases ha : a = 45
    · rw [if_pos ha] at h
      cases as with
      | nil => simp at h
      | cons d ds =>
        simp only [Bool.and_eq_true, decide_eq_true_eq] at h
        intro c hc
        rcases List.mem_cons.mp hc with hc | hc
        · omega
        · rcases List.mem_cons.mp hc with hc | hc
          · omega
          · have := List.all_eq_true.mp h.2 c hc
            simp [isDigit] at this
            omega
    · rw [if_neg ha] at h
      by_cases h48 : a = 48
      · rw [if_pos h48] at h
        simp only [decide_eq_true_eq] at h
        subst h h48
        simp
      · rw [if_neg h48] at h
        simp only [Bool.and_eq_true, decide_eq_true_eq] at h
        intro c hc
        rcases List.mem_cons.mp hc with hc | hc
        · omega
        · have := List.all_eq_true.mp h.2 c hc
          simp [isDigit] at this
          omega

theorem ser_head (v : BValue) :
    ∃ c cs, ser v = c :: cs ∧ ¬c = 101 ∧
      ((c = 105 ∨ c = 108 ∨ c = 100) ∨ isDigit c = true) := by
  cases v with
  | int t => exact ⟨105, _, rfl, by omega, .inl (.inl rfl)⟩
  | str s =>
    obtain ⟨c, cs, hcons, hc, -⟩ := natText_cons_digit s.length
    refine ⟨c, cs ++ 58 :: s, ?_, ?_, .inr hc⟩
    · simp [ser, hcons]
    · simp [isDigit] at hc
      omega
  | list xs => exact ⟨108, _, rfl, by omega, .inl (.inr (.inl rfl))⟩
  | dict ps => exact ⟨100, _, rfl, by omega, .inl (.inr (.inr rfl))⟩

theorem parse_ser_main : ∀ n : Nat,
    (∀ v, bndV v ≤ n → WFv v = true → ∀ rest fuel, bndV v ≤ fuel →
      parseVal fuel (ser v ++ rest) = some (v, rest)) ∧
    (∀ xs, bndL xs ≤ n → WFl xs = true → ∀ rest fuel, bndL xs ≤ fuel →
      parseItems fuel (serItems xs ++ 101 :: rest) = some (xs, rest)) ∧
    (∀ ps, bndP ps ≤ n → WFp ps = true → ∀ rest fuel, bndP ps ≤ fuel →
      parsePairs fuel (serPairs ps ++ 101 :: rest) = some (ps, rest)) := by
  intro n
  induction n with
  | zero =>
    refine ⟨fun v hb => ?_, fun xs hb => ?_, fun ps hb => ?_⟩
    · exfalso; cases v <;> simp [bndV] at hb
    · exfalso; cases xs <;> simp [bndL] at hb
    · exfalso; cases ps <;> simp [bndP] at hb
  | succ n ih =>
    obtain ⟨IH1, IH2, IH3⟩ := ih
    refine ⟨fun v hbn hwf rest fuel hbf => ?_, fun xs hbn hwf rest fuel hbf => ?_,
      fun ps hbn hwf rest fuel hbf => ?_⟩
    · cases v with
      | int t =>
        simp only [WFv] at hwf
        simp only [bndV] at hbf
        cases fuel with
        | zero => omega
        | succ f =>
          have hser : ser (.int t) ++ rest = 105 :: (t ++ 101 :: rest) := by
            simp [ser]
          rw [hser]
          simp only [parseVal, if_pos rfl]
          rw [splitAtE_no101 t (isIntTok_no101 t hwf) rest]
          simp [hwf]
      | str s =>
        simp only [bndV] at hbf
        cases fuel with
        | zero => omega
        | succ f =>
          obtain ⟨c, cs, hcons, hdig, -⟩ := natText_cons_digit s.length
          have hc : 48 ≤ c ∧ c ≤ 57 := by simpa [isDigit] using hdig
          have hser : ser (.str s) ++ rest = c :: (cs ++ 58 :: (s ++ rest)) := by
            simp [ser, hcons]
          rw [hser]
          simp only [parseVal]
          rw [if_neg (by omega), if_neg (by omega), if_neg (by omega)]
          have hback : (c :: (cs ++ 58 :: (s ++ rest))) =
              natText s.length ++ 58 :: (s ++ rest) := by
            simp [hcons]
          rw [hback, parseStrTok_ser]
      | list xs =>
        simp only [WFv] at hwf
        simp only [bndV] at hbn hbf
        cases fuel with
        | zero => omega
        | succ f =>
          have hser : ser (.list xs) ++ rest = 108 :: (serItems xs ++ 101 :: rest) := by
            simp [ser]
          rw [hser]
          simp only [parseVal]
          rw [if_neg (by omega)]
          simp only [if_true]
          rw [IH2 xs (by omega) hwf rest f (by omega)]
      | dict ps =>
        simp only [WFv] at hwf
        simp only [bndV] at hbn hbf
        cases fuel with
        | zero => omega
        | succ f =>
          have hser : ser (.dict ps) ++ rest = 100 :: (serPairs ps ++ 101 :: rest) := by
            simp [ser]
          rw [hser]
          simp only [parseVal]
          rw [if_neg (by omega), if_neg (by omega)]
          simp only [if_true]
          rw [IH3 ps (by omega) hwf rest f (by omega)]
    · cases xs with
      | nil =>
        simp only [bndL] at hbf
        cases fuel with
        | zero => omega
        | succ f =>
          simp [serItems, parseItems]
      | cons v vs =>
        simp only [WFl, Bool.and_eq_true] at hwf
        simp only [bndL] at hbn hbf
        cases fuel with
        | zero => omega
        | succ f =>
          obtain ⟨c, cs, hcons, hc101, -⟩ := ser_head v
          have hser : serItems (v :: vs) ++ 101 :: rest =
              c :: (cs ++ (serItems vs ++ 101 :: rest)) := by
            simp [serItems, hcons]
          rw [hser]
          simp only [parseItems]
          rw [if_neg hc101]
          have hback : (c :: (cs ++ (serItems vs ++ 101 :: rest))) =
              ser v ++ (serItems vs ++ 101 :: rest) := by
            simp [hcons]
          rw [hback, IH1 v (by omega) hwf.1 _ f (by omega)]
          dsimp only
          rw [IH2 vs (by omega) hwf.2 rest f (by omega)]
    · cases ps with
      | nil =>
        simp only [bndP] at hbf
        cases fuel with
        | zero => omega
        | succ f =>
          simp [serPairs, parsePairs]
      | cons p ps' =>
        simp only [WFp, Bool.and_eq_true] at hwf
        simp only [bndP] at hbn hbf
        cases fuel with
        | zero => omega
        | succ f =>
          obtain ⟨c, cs, hcons, hdig, -⟩ := natText_cons_digit p.1.length
          have hc : 48 ≤ c ∧ c ≤ 57 := by simpa [isDigit] using hdig
          have hser : serPairs (p :: ps') ++ 101 :: rest =
              c :: (cs ++ 58 :: (p.1 ++ (ser p.2 ++ (serPairs ps' ++ 101 :: rest)))) := by
            simp [serPairs, hcons]
          rw [hser]
          simp only [parsePairs]
          rw [if_neg (by omega)]
          have hback : (c :: (cs ++ 58 :: (p.1 ++ (ser p.2 ++ (serPairs ps' ++ 101 :: rest))))) =
              natText p.1.length ++ 58 :: (p.1 ++ (ser p.2 ++ (serPairs ps' ++ 101 :: rest))) := by
            simp [hcons]
          rw [hback, parseStrTok_ser]
          dsimp only
          rw [IH1 p.2 (by omega) hwf.1 _ f (by omega)]
          dsimp only
          rw [IH3 ps' (by omega) hwf.2 rest f (by omega)]

theorem bnd_le_serLen : ∀ n : Nat,
    (∀ v, bndV v ≤ n → bndV v + 2 ≤ 2 * (ser v).length) ∧
    (∀ xs, bndL xs ≤ n → bndL xs ≤ 2 * (serItems xs).length + 1) ∧
    (∀ ps, bndP ps ≤ n → bndP ps ≤ 2 * (serPairs ps).length + 1) := by
  intro n
  induction n with
  | zero =>
    refine ⟨fun v hb => ?_, fun xs hb => ?_, fun ps hb => ?_⟩
    · exfalso; cases v <;> simp [bndV] at hb
    · exfalso; cases xs <;> simp [bndL] at hb
    · exfalso; cases ps <;> simp [bndP] at hb
  | succ n ih =>
    obtain ⟨IH1, IH2, IH3⟩ := ih
    refine ⟨fun v hbn => ?_, fun xs hbn => ?_, fun ps hbn => ?_⟩
    · cases v with
      | int t => simp [bndV, ser]; omega
      | str s =>
        obtain ⟨hne, -, -⟩ := natText_spec s.length
        have : 1 ≤ (natText s.length).length := by
          cases h : natText s.length with
          | nil => exact absurd h hne
          | cons a as => simp
        simp [bndV, ser]
        omega
      | list xs =>
        simp only [bndV] at hbn ⊢
        have := IH2 xs (by omega)
        simp [ser]
        omega
      | dict ps =>
        simp only [bndV] at hbn ⊢
        have := IH3 ps (by omega)
        simp [ser]
        omega
    · cases xs with
      | nil => simp [bndL, serItems]
      | cons v vs =>
        simp only [bndL] at hbn ⊢
        have h1 := IH1 v (by omega)
        have h2 := IH2 vs (by omega)
        simp only [serItems, List.length_append]
        omega
    · cases ps with
      | nil => simp [bndP, serPairs]
      | cons p ps' =>
        simp only [bndP] at hbn ⊢
        have h1 := IH1 p.2 (by omega)
        have h2 := IH3 ps' (by omega)
        obtain ⟨hne, -, -⟩ := natText_spec p.1.length
        have : 1 ≤ (natText p.1.length).length := by
          cases h : natText p.1.length with
          | nil => exact absurd h hne
          | cons a as => simp
        simp only [serPairs, List.length_append, List.length_cons]
        omega

theorem parseWhole_ser (v : BValue) (hwf : WFv v = true) : parseWhole (ser v) = some v := by
  have hb := (bnd_le_serLen (bndV v)).1 v (le_refl _)
  have h1 := (parse_ser_main (bndV v)).1 v (le_refl _) hwf []
    (2 * (ser v).length + 2) (by omega)
  rw [List.append_nil] at h1
  simp [parseWhole, h1]

theorem WFl_map_str {α : Type} (f : α → List Nat) :
    ∀ (vs : List α), WFl (vs.map (fun a => BValue.str (f a))) = true := by
  intro vs
  induction vs with
  | nil => rfl
  | cons a as ih => simp [WFl, WFv, ih]

theorem WFv_rawQA (q : Raw.QueryArgs) : WFv q.encodeB = true := by
  obtain ⟨sender, target, ih, ipt, prt, tok⟩ := q
  rcases target with _ | t <;> rcases ih with _ | i <;> rcases ipt with _ | b <;>
    rcases prt with _ | p <;> rcases tok with _ | tk <;>
    simp [Raw.QueryArgs.encodeB, Raw.Hash.encodeB, WFv, WFp, isIntTok_natText]

theorem WFv_rawResp (r : Raw.Response) : WFv r.encodeB = true := by
  obtain ⟨sender, nodes, values, tok⟩ := r
  rcases nodes with _ | ns <;> rcases values with _ | vs <;> rcases tok with _ | tk <;>
    simp [Raw.Response.encodeB, Raw.Hash.encodeB, WFv, WFp, WFl_map_str]

theorem WFv_rawError (e : Raw.Error) : WFv e.encodeB = true := by
  simp [Raw.Error.encodeB, WFv, WFl, isIntTok_intText]

theorem WFv_dict (ps : List (List Nat × BValue)) : WFv (.dict ps) = WFp ps := rfl

theorem WFv_str (s : List Nat) : WFv (.str s) = true := rfl

theorem WFp_append : ∀ l1 l2, WFp (l1 ++ l2) = (WFp l1 && WFp l2) := by
  intro l1 l2
  induction l1 with
  | nil => simp [WFp]
  | cons p ps ih => simp [WFp, ih, Bool.and_assoc]

theorem WFv_rawMT (mt : Raw.MessageType) : WFv mt.encodeB = true := by
  cases mt <;> rfl

theorem WFv_rawQT (qt : Raw.QueryType) : WFv qt.encodeB = true := by
  cases qt <;> rfl

theorem WFv_rawMsg (m : Raw.Message) : WFv m.encodeB = true := by
  obtain ⟨tid, mt, qt, qa, resp, err⟩ := m
  rcases qt with _ | qt <;> rcases qa with _ | qa <;> rcases resp with _ | resp <;>
    rcases err with _ | err <;>
    simp [Raw.Message.encodeB, WFv_dict, WFp_append, WFp, WFv_str, WFv_rawQA, WFv_rawResp,
      WFv_rawError, WFv_rawMT, WFv_rawQT]

theorem WFp_insSorted (p : List Nat × BValue) :
    ∀ l, WFp (Lib.insSorted p l) = (WFv p.2 && WFp l) := by
  intro l
  induction l with
  | nil => simp [Lib.insSorted, WFp]
  | cons q qs ih =>
    simp only [Lib.insSorted]
    by_cases hlt : Lib.lexLtB p.1 q.1 = true
    · simp [hlt, WFp]
    · simp only [hlt, if_false, WFp, ih]
      rw [Bool.and_left_comm]

theorem WFp_sortPairs : ∀ l, WFp (Lib.sortPairs l) = WFp l := by
  intro l
  induction l with
  | nil => rfl
  | cons p ps ih =>
    simp only [Lib.sortPairs, List.foldr_cons] at ih ⊢
    rw [WFp_insSorted, ih, WFp]

theorem WFv_libPayload (p : Lib.Payload) : WFv p.encodeB = true := by
  cases p with
  | Ping p => simp [Lib.Payload.encodeB, Lib.Ping.encodeB, Lib.Hash.encodeB, WFv, WFp]
  | FindNode f =>
    simp [Lib.Payload.encodeB, Lib.FindNode.encodeB, Lib.Hash.encodeB, WFv, WFp]
  | GetPeers g =>
    simp [Lib.Payload.encodeB, Lib.GetPeers.encodeB, Lib.Hash.encodeB, WFv, WFp]
  | AnnouncePeer a =>
    rcases a with ⟨id, ipt, ihash, prt, tok⟩
    rcases ipt with _ | b <;>
      simp [Lib.Payload.encodeB, Lib.AnnouncePeer.encodeB, Lib.Hash.encodeB, WFv, WFp,
        isIntTok_natText]
  | Response r =>
    obtain ⟨id, nodes, values, tok⟩ := r
    rcases nodes with _ | ns <;> rcases values with _ | vs <;> rcases tok with _ | tk <;>
      simp [Lib.Payload.encodeB, Lib.Response.encodeB, Lib.Hash.encodeB, WFv, WFp, WFl_map_str]
  | Error e =>
    simp [Lib.Payload.encodeB, Lib.Error.encodeB, WFv, WFl, isIntTok_intText]

theorem WFv_libPT (pt : Lib.PayloadType) : WFv pt.encodeB = true := by
  cases pt <;> rfl

theorem WFv_libMsg (m : Lib.Message) : WFv m.encodeB = true := by
  obtain ⟨tid, payload⟩ := m
  have hp := WFv_libPayload payload
  cases payload <;>
    simp [Lib.Message.encodeB, Lib.Payload.queryName, WFv_dict, WFp_sortPairs, WFp_append,
      WFp, WFv_str, WFv_libPT, hp]

theorem rawMsg_fromBytes_toBytes (m : Raw.Message) (hv : m.valid = true) :
    Raw.Message.fromBytes m.toBytes = .ok m := by
  simp only [Raw.Message.fromBytes, Raw.Message.toBytes,
    parseWhole_ser _ (WFv_rawMsg m)]
  exact rawMsg_decode_encode m hv

theorem libMsg_fromBytes_toBytes (m : Lib.Message) (hv : m.valid = true) :
    Lib.Message.fromBytes m.toBytes = .ok m := by
  simp only [Lib.Message.fromBytes, Lib.Message.toBytes,
    parseWhole_ser _ (WFv_libMsg m)]
  exact libMsg_decode_encode m hv

/-- C1: for every valid message value (a message whose fields satisfy the
data-model invariants), decoding the bytes produced by encoding it yields
the message back — for both the raw.rs and the lib.rs implementation. -/
theorem decode_encode_roundtrip :
    (∀ m : Raw.Message, m.valid = true → Raw.Message.fromBytes m.toBytes = .ok m) ∧
    (∀ m : Lib.Message, m.valid = true → Lib.Message.fromBytes m.toBytes = .ok m) :=
  ⟨rawMsg_fromBytes_toBytes, libMsg_fromBytes_toBytes⟩

/-- Witness for C1: the round trip evaluated on a concrete announce-peer
query (raw.rs) and a concrete ping (lib.rs). -/
theorem decode_encode_roundtrip_witness :
    (Raw.Message.fromBytes (Raw.Message.toBytes ⟨24929, .Query, some .AnnouncePeer,
        some ⟨⟨bs "abcdefghij0123456789"⟩, none, some ⟨bs "mnopqrstuvwxyz123456"⟩,
          some true, some 6881, some (bs "aoeusnth")⟩, none, none⟩) =
      .ok ⟨24929, .Query, some .AnnouncePeer,
        some ⟨⟨bs "abcdefghij0123456789"⟩, none, some ⟨bs "mnopqrstuvwxyz123456"⟩,
          some true, some 6881, some (bs "aoeusnth")⟩, none, none⟩) ∧
    (Lib.Message.fromBytes (Lib.Message.toBytes
        (Lib.Message.ping 24929 (bs "abcdefghij0123456789"))) =
      .ok (Lib.Message.ping 24929 (bs "abcdefghij0123456789"))) :=
  ⟨decode_encode_roundtrip.1 _ (by decide), decode_encode_roundtrip.2 _ (by decide)⟩

/-- Counterexample for C5: the raw.rs decoder accepts the find_node query
wire bytes whose `a` dictionary has no `target` key, returning a message
with `target = none` instead of failing with a missing-field error. -/
theorem raw_find_node_no_target_accepted :
    Raw.Message.fromBytes
        (bs "d1:ad2:id20:abcdefghij0123456789e1:q9:find_node1:t2:aa1:y1:qe") =
      .ok ⟨24929, .Query, some .FindNone,
        some ⟨⟨bs "abcdefghij0123456789"⟩, none, none, none, none, none⟩, none, none⟩ ∧
    Raw.Message.fromBytes
        (bs "d1:ad2:id20:abcdefghij0123456789e1:q9:find_node1:t2:aa1:y1:qe") ≠
      .error (.missingField "target") := by
  constructor
  · rfl
  · intro h
    cases h
